import Mathlib

/-!
Verification of the validation schemas in `src/jwt.ts` (siwe-zustand).

The file contains a shallow embedding of:
* a JSON value model (`JsonValue`), a JSON text parser (`jsonParse`, modelling
  the JavaScript builtin `JSON.parse`) and a serializer (`jsonSerialize`,
  modelling `JSON.stringify`);
* the zod schemas declared in `src/jwt.ts` as functions from `JsonValue`
  (resp. `String` for the string-wrapped schemas) to either a validated,
  typed value or a list of validation issues, following zod's collection
  semantics (all field issues are collected; `.refine` / `.superRefine`
  effects run only after the wrapped schema succeeded);
* the helper `createErrorResponse`.

Theorems at the end of the file settle the specification claims.
-/

set_option maxHeartbeats 1000000

/-! ## JSON value model

JavaScript numbers are IEEE-754 doubles; every double is an exact decimal
fraction, so numbers are modelled as rationals, with decimal
representability (`(q * 10 ^ q.den).den = 1`) as the well-formedness
condition used where serialization must round-trip. -/

inductive JsonValue where
  | null : JsonValue
  | bool (b : Bool) : JsonValue
  | num (q : ℚ) : JsonValue
  | str (s : String) : JsonValue
  | arr (xs : List JsonValue) : JsonValue
  | obj (fields : List (String × JsonValue)) : JsonValue

abbrev Chars := List Char

/-! ## Character helpers -/

def d2n (c : Char) : Nat := c.toNat - 48

def isWs (c : Char) : Bool := c = ' ' || c = '\t' || c = '\n' || c = '\r'

def isHexDigitCh (c : Char) : Bool :=
  c.isDigit || ('a' ≤ c && c ≤ 'f') || ('A' ≤ c && c ≤ 'F')

def hexVal (c : Char) : Option Nat :=
  if c.isDigit then some (c.toNat - 48)
  else if 'a' ≤ c && c ≤ 'f' then some (c.toNat - 87)
  else if 'A' ≤ c && c ≤ 'F' then some (c.toNat - 55)
  else none

/-! ## JSON text parser (model of `JSON.parse`)

Fuel-based recursive-descent parser over a character list.  All functions are
structurally recursive (on fuel or on the input), so they reduce in the
kernel and concrete parses can be checked by `rfl`/`decide`. -/

def skipWs : Chars → Chars
  | [] => []
  | c :: cs => if isWs c then skipWs cs else c :: cs

/-- Consume a maximal run of decimal digits, extending accumulator `acc`
(value) and `n` (count of digits consumed). -/
def parseDigitsAux : Chars → Nat → Nat → Nat × Nat × Chars
  | [], acc, n => (acc, n, [])
  | c :: cs, acc, n =>
    if c.isDigit then parseDigitsAux cs (acc * 10 + d2n c) (n + 1)
    else (acc, n, c :: cs)

def escDecode (c : Char) : Option Char :=
  if c = '"' then some '"'
  else if c = '\\' then some '\\'
  else if c = '/' then some '/'
  else if c = 'b' then some '\x08'
  else if c = 'f' then some '\x0C'
  else if c = 'n' then some '\n'
  else if c = 'r' then some '\r'
  else if c = 't' then some '\t'
  else none

/-- Parse the body of a string literal (the opening quote has already been
consumed), returning the decoded characters and the input after the closing
quote. -/
def parseStringRest : Chars → Except String (Chars × Chars)
  | [] => .error "unterminated string"
  | c :: cs =>
    if c = '"' then .ok ([], cs)
    else if c = '\\' then
      match cs with
      | [] => .error "unterminated escape"
      | e :: cs' =>
        if e = 'u' then
          match cs' with
          | h1 :: h2 :: h3 :: h4 :: cs'' =>
            match hexVal h1, hexVal h2, hexVal h3, hexVal h4 with
            | some a, some b, some c2, some d =>
              (parseStringRest cs'').map
                (fun r => (Char.ofNat (((a * 16 + b) * 16 + c2) * 16 + d) :: r.1, r.2))
            | _, _, _, _ => .error "invalid unicode escape"
          | _ => .error "invalid unicode escape"
        else
          match escDecode e with
          | some d => (parseStringRest cs').map (fun r => (d :: r.1, r.2))
          | none => .error "invalid escape"
    else (parseStringRest cs).map (fun r => (c :: r.1, r.2))

def parseExpDigits (q : ℚ) (neg : Bool) (cs : Chars) : Except String (ℚ × Chars) :=
  match cs with
  | [] => .error "expected exponent digits"
  | c :: _ =>
    if c.isDigit then
      let r := parseDigitsAux cs 0 0
      .ok (if neg then q / 10 ^ r.1 else q * 10 ^ r.1, r.2.2)
    else .error "expected exponent digits"

def parseExp (q : ℚ) (cs : Chars) : Except String (ℚ × Chars) :=
  match cs with
  | [] => .error "expected exponent digits"
  | c :: cs' =>
    if c = '+' then parseExpDigits q false cs'
    else if c = '-' then parseExpDigits q true cs'
    else parseExpDigits q false (c :: cs')

def parseExpOpt (q : ℚ) (cs : Chars) : Except String (ℚ × Chars) :=
  match cs with
  | [] => .ok (q, [])
  | c :: cs' =>
    if c = 'e' || c = 'E' then parseExp q cs'
    else .ok (q, c :: cs')

/-- Parse an unsigned JSON number: integer digits, optional fraction,
optional exponent. -/
def parseNumAbs (cs : Chars) : Except String (ℚ × Chars) :=
  match cs with
  | [] => .error "expected digit"
  | c :: _ =>
    if c.isDigit then
      let r := parseDigitsAux cs 0 0
      let a : Nat := r.1
      match r.2.2 with
      | [] => parseExpOpt (a : ℚ) []
      | c1 :: cs2 =>
        if c1 = '.' then
          match cs2 with
          | [] => .error "expected digits after decimal point"
          | d :: _ =>
            if d.isDigit then
              let r2 := parseDigitsAux cs2 0 0
              parseExpOpt ((a : ℚ) + (r2.1 : ℚ) / 10 ^ r2.2.1) r2.2.2
            else .error "expected digits after decimal point"
        else parseExpOpt (a : ℚ) (c1 :: cs2)
    else .error "expected digit"

def parseNumber (cs : Chars) : Except String (ℚ × Chars) :=
  match cs with
  | [] => .error "expected digit"
  | c :: cs' =>
    if c = '-' then (parseNumAbs cs').map (fun r => (-r.1, r.2))
    else parseNumAbs (c :: cs')

/-- Insert a field into an object, JavaScript-style: a repeated key keeps its
original position and takes the later value. -/
def insertField (fs : List (String × JsonValue)) (k : String) (v : JsonValue) :
    List (String × JsonValue) :=
  match fs with
  | [] => [(k, v)]
  | (k', v') :: rest =>
    if k' = k then (k', v) :: rest else (k', v') :: insertField rest k v

def dedupFields (fs : List (String × JsonValue)) : List (String × JsonValue) :=
  fs.foldl (fun acc f => insertField acc f.1 f.2) []

mutual

def parseValue : Nat → Chars → Except String (JsonValue × Chars)
  | 0, _ => .error "input too deeply nested"
  | fuel + 1, cs =>
    match skipWs cs with
    | [] => .error "unexpected end of input"
    | c :: cs' =>
      if c = 'n' then
        match cs' with
        | 'u' :: 'l' :: 'l' :: rest => .ok (.null, rest)
        | _ => .error "invalid literal"
      else if c = 't' then
        match cs' with
        | 'r' :: 'u' :: 'e' :: rest => .ok (.bool true, rest)
        | _ => .error "invalid literal"
      else if c = 'f' then
        match cs' with
        | 'a' :: 'l' :: 's' :: 'e' :: rest => .ok (.bool false, rest)
        | _ => .error "invalid literal"
      else if c = '"' then
        (parseStringRest cs').map (fun r => (.str ⟨r.1⟩, r.2))
      else if c = '[' then
        (parseArrayItems fuel cs').map (fun r => (.arr r.1, r.2))
      else if c = '\x7b' then
        (parseObjItems fuel cs').map (fun r => (.obj (dedupFields r.1), r.2))
      else if c = '-' || c.isDigit then
        (parseNumber (c :: cs')).map (fun r => (.num r.1, r.2))
      else .error "unexpected character"

def parseArrayItems : Nat → Chars → Except String (List JsonValue × Chars)
  | 0, _ => .error "input too deeply nested"
  | fuel + 1, cs =>
    match skipWs cs with
    | [] => .error "unterminated array"
    | c :: cs' =>
      if c = ']' then .ok ([], cs')
      else
        match parseValue fuel (c :: cs') with
        | .error e => .error e
        | .ok (v, r) =>
          match skipWs r with
          | [] => .error "unterminated array"
          | d :: r' =>
            if d = ',' then
              (parseArrayItems fuel r').map (fun q => (v :: q.1, q.2))
            else if d = ']' then .ok ([v], r')
            else .error "expected comma or closing bracket"

def parseObjItems : Nat → Chars → Except String (List (String × JsonValue) × Chars)
  | 0, _ => .error "input too deeply nested"
  | fuel + 1, cs =>
    match skipWs cs with
    | [] => .error "unterminated object"
    | c :: cs' =>
      if c = '\x7d' then .ok ([], cs')
      else if c = '"' then
        match parseStringRest cs' with
        | .error e => .error e
        | .ok (kl, r1) =>
          match skipWs r1 with
          | [] => .error "expected colon"
          | d :: r2 =>
            if d = ':' then
              match parseValue fuel r2 with
              | .error e => .error e
              | .ok (v, r3) =>
                match skipWs r3 with
                | [] => .error "unterminated object"
                | e2 :: r4 =>
                  if e2 = ',' then
                    (parseObjItems fuel r4).map (fun q => ((⟨kl⟩, v) :: q.1, q.2))
                  else if e2 = '\x7d' then .ok ([(⟨kl⟩, v)], r4)
                  else .error "expected comma or closing brace"
            else .error "expected colon"
      else .error "expected object key"

end

/-- Model of `JSON.parse`: parse a whole string as a single JSON value,
allowing surrounding whitespace and rejecting trailing input. -/
def jsonParse (s : String) : Except String JsonValue :=
  match parseValue (2 * s.length + 2) s.data with
  | .error e => .error e
  | .ok (v, rest) =>
    match skipWs rest with
    | [] => .ok v
    | _ => .error "unexpected trailing characters"

/-! ## JSON serializer (model of `JSON.stringify`)

The serializer emits no whitespace.  Strings escape only `"` and `\`; the
parser above is lenient and accepts the remaining characters verbatim.
Numbers are emitted in plain decimal; the digit count of the fractional part
is not minimized (a decimal representation is guaranteed by `jsonWf` below),
which `JSON.parse` is insensitive to. -/

def digitCh (d : Nat) : Char :=
  if d = 0 then '0' else if d = 1 then '1' else if d = 2 then '2'
  else if d = 3 then '3' else if d = 4 then '4' else if d = 5 then '5'
  else if d = 6 then '6' else if d = 7 then '7' else if d = 8 then '8'
  else '9'

def natDigitsStr (n : Nat) : Chars :=
  if _h : n < 10 then [digitCh n]
  else natDigitsStr (n / 10) ++ [digitCh (n % 10)]
decreasing_by exact Nat.div_lt_self (by omega) (by omega)

/-- Digit run for a fractional part: the digits of `n` left-padded with
zeros to exactly `k` digits. -/
def zeroPad (k : Nat) (n : Nat) : Chars :=
  List.replicate (k - (natDigitsStr n).length) '0' ++ natDigitsStr n

def serNumAbs (q : ℚ) : Chars :=
  if q.den = 1 then natDigitsStr q.num.toNat
  else
    natDigitsStr ((q * 10 ^ q.den).num.toNat / 10 ^ q.den) ++
      '.' :: zeroPad q.den ((q * 10 ^ q.den).num.toNat % 10 ^ q.den)

def serNum (q : ℚ) : Chars :=
  if q < 0 then '-' :: serNumAbs (-q) else serNumAbs q

def escChar (c : Char) : Chars :=
  if c = '"' then ['\\', '"']
  else if c = '\\' then ['\\', '\\']
  else [c]

def escStr : Chars → Chars
  | [] => []
  | c :: cs => escChar c ++ escStr cs

mutual

def serChars : JsonValue → Chars
  | .null => "null".data
  | .bool true => "true".data
  | .bool false => "false".data
  | .num q => serNum q
  | .str s => '"' :: (escStr s.data ++ ['"'])
  | .arr xs => '[' :: (serItemsChars xs ++ [']'])
  | .obj fs => '\x7b' :: (serFieldsChars fs ++ ['\x7d'])

def serItemsChars : List JsonValue → Chars
  | [] => []
  | [x] => serChars x
  | x :: y :: xs => serChars x ++ ',' :: serItemsChars (y :: xs)

def serFieldsChars : List (String × JsonValue) → Chars
  | [] => []
  | [f] => '"' :: (escStr f.1.data ++ '"' :: ':' :: serChars f.2)
  | f :: g :: fs =>
    ('"' :: (escStr f.1.data ++ '"' :: ':' :: serChars f.2)) ++ ',' :: serFieldsChars (g :: fs)

end

/-- Model of `JSON.stringify` on JSON values. -/
def jsonSerialize (v : JsonValue) : String := ⟨serChars v⟩

/-! ## Size measure and well-formedness -/

mutual

def jsize : JsonValue → Nat
  | .null => 1
  | .bool _ => 1
  | .num _ => 1
  | .str _ => 1
  | .arr xs => 1 + jsizeItems xs
  | .obj fs => 1 + jsizeFields fs

def jsizeItems : List JsonValue → Nat
  | [] => 0
  | x :: xs => 1 + jsize x + jsizeItems xs

def jsizeFields : List (String × JsonValue) → Nat
  | [] => 0
  | f :: fs => 1 + jsize f.2 + jsizeFields fs

end

def nodupKeys : List (String × JsonValue) → Bool
  | [] => true
  | (k, _) :: fs => !(fs.any (fun f => f.1 = k)) && nodupKeys fs

mutual

/-- Well-formedness of a JSON value as the image of a JavaScript value:
every number is an exact finite decimal (as every IEEE-754 double is) and
object keys are distinct (as JavaScript object keys are). -/
def jsonWf : JsonValue → Bool
  | .null => true
  | .bool _ => true
  | .num q => (q * 10 ^ q.den).den = 1
  | .str _ => true
  | .arr xs => jsonWfItems xs
  | .obj fs => nodupKeys fs && jsonWfFields fs

def jsonWfItems : List JsonValue → Bool
  | [] => true
  | x :: xs => jsonWf x && jsonWfItems xs

def jsonWfFields : List (String × JsonValue) → Bool
  | [] => true
  | f :: fs => jsonWf f.2 && jsonWfFields fs

end

/-! ## Validation model (zod semantics)

A schema is a function from a `JsonValue` to either the validated, typed
value or the list of validation issues.  Issues carry the field path and a
message; object validation collects the issues of all fields in declaration
order; `.refine` / `.superRefine` run only once the underlying schema
succeeded. -/

inductive PathElem where
  | key (s : String)
  | idx (n : Nat)
deriving DecidableEq

structure Issue where
  path : List PathElem
  message : String
deriving DecidableEq

abbrev VResult (α : Type) := Except (List Issue) α

def errList {α : Type} : VResult α → List Issue
  | .ok _ => []
  | .error is => is

def okVal {α : Type} : VResult α → Option α
  | .ok a => some a
  | .error _ => none

def prefixKey {α : Type} (k : String) : VResult α → VResult α
  | .ok a => .ok a
  | .error is => .error (is.map fun i => ⟨.key k :: i.path, i.message⟩)

def prefixIdx {α : Type} (n : Nat) : VResult α → VResult α
  | .ok a => .ok a
  | .error is => .error (is.map fun i => ⟨.idx n :: i.path, i.message⟩)

/-- Pair two field results, collecting the issues of both (zod object
semantics: all fields are validated and all issues returned). -/
def zPair {α β : Type} (ra : VResult α) (rb : VResult β) : VResult (α × β) :=
  match ra, rb with
  | .ok a, .ok b => .ok (a, b)
  | _, _ => .error (errList ra ++ errList rb)

def jsonTypeName : JsonValue → String
  | .null => "null"
  | .bool _ => "boolean"
  | .num _ => "number"
  | .str _ => "string"
  | .arr _ => "array"
  | .obj _ => "object"

def typeIssue (expected : String) (v : JsonValue) : Issue :=
  ⟨[], "Expected " ++ expected ++ ", received " ++ jsonTypeName v⟩

/-- A required field of an object: a missing key yields zod's `Required`
issue at that key's path. -/
def reqField {α : Type} (fs : List (String × JsonValue)) (k : String)
    (f : JsonValue → VResult α) : VResult α :=
  match fs.lookup k with
  | none => .error [⟨[.key k], "Required"⟩]
  | some v => prefixKey k (f v)

/-- An `.optional()` field of an object: a missing key succeeds with no
value. -/
def optField {α : Type} (fs : List (String × JsonValue)) (k : String)
    (f : JsonValue → VResult α) : VResult (Option α) :=
  match fs.lookup k with
  | none => .ok none
  | some v => (prefixKey k (f v)).map some

/-- Run a chain of checks (`.min`, `.max`, `.regex`, ...) on an accepted
base value, collecting every failing check's issue in chain order. -/
def runChecks {α : Type} (checks : List (α → Option String)) (a : α) : List Issue :=
  checks.filterMap fun ch => (ch a).map fun m => ⟨[], m⟩

def zString (checks : List (String → Option String)) : JsonValue → VResult String :=
  fun v =>
    match v with
    | .str s =>
      match runChecks checks s with
      | [] => .ok s
      | is => .error is
    | _ => .error [typeIssue "string" v]

def zNumber (checks : List (ℚ → Option String)) : JsonValue → VResult ℚ :=
  fun v =>
    match v with
    | .num q =>
      match runChecks checks q with
      | [] => .ok q
      | is => .error is
    | _ => .error [typeIssue "number" v]

def zBoolean : JsonValue → VResult Bool := fun v =>
  match v with
  | .bool b => .ok b
  | _ => .error [typeIssue "boolean" v]

/-- `.refine(pred, \x7b message \x7d)`: runs only after the wrapped schema
succeeded; a failing predicate yields one custom issue. -/
def zRefine {α : Type} (base : JsonValue → VResult α) (pred : α → Bool)
    (msg : String) : JsonValue → VResult α := fun v =>
  match base v with
  | .error is => .error is
  | .ok a => if pred a then .ok a else .error [⟨[], msg⟩]

/-- `z.array(elem).min(minLen, msg)`: the length check's issue (if any) comes
first, then the issues of the elements, each prefixed with its index. -/
def zArrayMin {α : Type} (minLen : Nat) (msg : String)
    (elemF : JsonValue → VResult α) : JsonValue → VResult (List α) := fun v =>
  match v with
  | .arr xs =>
    let lenIss : List Issue := if xs.length < minLen then [⟨[], msg⟩] else []
    let rs := xs.enum.map fun p => prefixIdx p.1 (elemF p.2)
    match lenIss ++ (rs.map errList).flatten with
    | [] => .ok (rs.filterMap okVal)
    | i :: is => .error (i :: is)
  | _ => .error [typeIssue "array" v]

def strMin (n : Nat) (msg : String) : String → Option String :=
  fun s => if s.length < n then some msg else none

def strMax (n : Nat) (msg : String) : String → Option String :=
  fun s => if n < s.length then some msg else none

def strPattern (p : String → Bool) (msg : String) : String → Option String :=
  fun s => if p s then none else some msg

def numInt : ℚ → Option String :=
  fun q => if q.den = 1 then none else some "Expected integer, received float"

def numMin (n : ℚ) (msg : String) : ℚ → Option String :=
  fun q => if q < n then some msg else none

def numMax (n : ℚ) (msg : String) : ℚ → Option String :=
  fun q => if n < q then some msg else none

/-! ## Pattern predicates used by the schemas -/

def digitsList (l : Chars) : Bool := !l.isEmpty && l.all Char.isDigit

def parseNatList (l : Chars) : Nat := l.foldl (fun a c => a * 10 + d2n c) 0

/-- `^\d+$` -/
def digitsRe (s : String) : Bool := digitsList s.data

/-- Value of `Number.parseInt(s, 10)` on a string matching `^\d+$`. -/
def parseNatStr (s : String) : Nat := parseNatList s.data

/-- Split at the first `.`, if any. -/
def splitOnDot : Chars → Chars × Option Chars
  | [] => ([], none)
  | c :: cs =>
    if c = '.' then ([], some cs)
    else
      let r := splitOnDot cs
      (c :: r.1, r.2)

/-- `^\d+(\.\d+)?$` (a second dot lands in the fractional part and fails
its digit test). -/
def decRe (s : String) : Bool :=
  match splitOnDot s.data with
  | (a, none) => digitsList a
  | (a, some b) => digitsList a && digitsList b

/-- Value of `Number.parseFloat(s)` on a string matching `^\d+(\.\d+)?$`. -/
def parseDecStr (s : String) : ℚ :=
  match splitOnDot s.data with
  | (a, none) => (parseNatList a : ℚ)
  | (a, some b) => mkRat (parseNatList a * 10 ^ b.length + parseNatList b) (10 ^ b.length)

/-- `^[A-Z0-9]+$` -/
def symbolRe (s : String) : Bool :=
  !s.data.isEmpty && s.data.all fun c => ('A' ≤ c && c ≤ 'Z') || c.isDigit

/-- `^0x[a-fA-F0-9]{n}$` -/
def hexAddrOk (n : Nat) (s : String) : Bool :=
  match s.data with
  | '0' :: 'x' :: rest => rest.length = n && rest.all isHexDigitCh
  | _ => false

/-- zod's `.uuid()` shape: `8-4-4-4-12` hexadecimal groups. -/
def uuidOk (s : String) : Bool :=
  s.data.length = 36 && s.data.enum.all fun p =>
    if p.1 = 8 || p.1 = 13 || p.1 = 18 || p.1 = 23 then p.2 = '-' else isHexDigitCh p.2

/-- Modelled approximation of the WHATWG `URL` constructor behind zod's
`.url()` check: an alphabetic scheme, `://`, and a nonempty remainder.  No
claim depends on its exact extension. -/
def splitSchemeSep : Chars → Option (Chars × Chars)
  | [] => none
  | c :: cs =>
    if c = ':' then
      match cs with
      | '/' :: '/' :: rest => some ([], rest)
      | _ => none
    else (splitSchemeSep cs).map (fun r => (c :: r.1, r.2))

def urlOk (s : String) : Bool :=
  match splitSchemeSep s.data with
  | some (scheme, rest) =>
    !scheme.isEmpty && scheme.all Char.isAlpha && !rest.isEmpty
  | none => false

/-! ## Schemas of `src/jwt.ts` -/

structure LoginRequest where
  message : String
  signature : String
deriving DecidableEq

structure LoginSuccessResponse where
  token : String
deriving DecidableEq

structure ErrorResponse where
  error : String
  message : Option String
  details : Option JsonValue

structure BondingCurveStep where
  range : String
  price : String
deriving DecidableEq

structure RequestCoinCreationPayload where
  name : String
  symbol : String
  logo_url : Option String
  description : String
  reserve_token_address : String
  mint_royalty_bps : ℚ
  burn_royalty_bps : ℚ
  bonding_curve_steps : List BondingCurveStep
  manual_verification_requested : Bool
deriving DecidableEq

structure ConfirmCoinCreationPayload where
  coin_id : String
  transaction_hash : String
  status : String
  contract_address : Option String
  error_message : Option String
deriving DecidableEq

def messageField : JsonValue → VResult String :=
  zString [strMin 1 "メッセージは必須です"]

def signatureField : JsonValue → VResult String :=
  zString [strMin 1 "署名は必須です"]

/-- `LoginRequestSchema` of `src/jwt.ts`. -/
def LoginRequestSchema (v : JsonValue) : VResult LoginRequest :=
  match v with
  | .obj fs =>
    (zPair (reqField fs "message" messageField)
      (reqField fs "signature" signatureField)).map fun p => ⟨p.1, p.2⟩
  | _ => .error [typeIssue "object" v]

/-- `LoginSuccessResponseSchema` of `src/jwt.ts`. -/
def LoginSuccessResponseSchema (v : JsonValue) : VResult LoginSuccessResponse :=
  match v with
  | .obj fs => (reqField fs "token" (zString [])).map fun t => ⟨t⟩
  | _ => .error [typeIssue "object" v]

/-- `ErrorResponseSchema` of `src/jwt.ts` (`error` required string,
`message` optional string, `details` optional unknown). -/
def ErrorResponseSchema (v : JsonValue) : VResult ErrorResponse :=
  match v with
  | .obj fs =>
    (zPair (reqField fs "error" (zString []))
      (zPair (optField fs "message" (zString []))
        (optField fs "details" (fun u => .ok u)))).map fun p => ⟨p.1, p.2.1, p.2.2⟩
  | _ => .error [typeIssue "object" v]

/-- Serialization shape of a valid `LoginRequest` (insertion order of the
object literal). -/
def LoginRequest.toJson (r : LoginRequest) : JsonValue :=
  .obj [("message", .str r.message), ("signature", .str r.signature)]

def LoginSuccessResponse.toJson (r : LoginSuccessResponse) : JsonValue :=
  .obj [("token", .str r.token)]

def ErrorResponse.toJson (r : ErrorResponse) : JsonValue :=
  .obj ([("error", JsonValue.str r.error)]
    ++ (match r.message with
        | some m => [("message", JsonValue.str m)]
        | none => [])
    ++ (match r.details with
        | some d => [("details", d)]
        | none => []))

/-- Rendering of a zod issue list into the thrown `ZodError`'s `message`
(model of `ZodError#message`; no claim depends on the exact text, only on
the wrapped failure embedding it). -/
def renderIssues (is : List Issue) : String :=
  String.intercalate "; " (is.map fun i =>
    String.intercalate "." (i.path.map fun e =>
      match e with
      | .key k => k
      | .idx n => toString n) ++ ": " ++ i.message)

def jsonWrapMessage (e : String) : String :=
  "有効なJSONではないか、期待する形式ではありません: " ++ e

/-- The `z.string().transform(...)` pattern shared by the three
string-wrapped schemas: `JSON.parse` the input and `.parse` it with the
object schema inside a single `try`; any thrown error (parse failure or
`ZodError`) is caught and surfaced as one custom root issue whose message
embeds the thrown error's message. -/
def stringWrapped {α : Type} (objSchema : JsonValue → VResult α) (s : String) :
    VResult α :=
  match jsonParse s with
  | .error e => .error [⟨[], jsonWrapMessage e⟩]
  | .ok v =>
    match objSchema v with
    | .error is => .error [⟨[], jsonWrapMessage (renderIssues is)⟩]
    | .ok a => .ok a

/-- `LoginRequestStringSchema` of `src/jwt.ts`. -/
def LoginRequestStringSchema : String → VResult LoginRequest :=
  stringWrapped LoginRequestSchema

/-- `LoginSuccessResponseStringSchema` of `src/jwt.ts`. -/
def LoginSuccessResponseStringSchema : String → VResult LoginSuccessResponse :=
  stringWrapped LoginSuccessResponseSchema

/-- `ErrorResponseStringSchema` of `src/jwt.ts`. -/
def ErrorResponseStringSchema : String → VResult ErrorResponse :=
  stringWrapped ErrorResponseSchema

/-! ## `createErrorResponse` -/

/-- JavaScript truthiness of a JSON value (`NaN` excluded by the model). -/
def jsTruthy : JsonValue → Bool
  | .null => false
  | .bool b => b
  | .num q => q != 0
  | .str s => s != ""
  | .arr _ => true
  | .obj _ => true

def strOptTruthy : Option String → Bool
  | none => false
  | some s => s != ""

def jsonOptTruthy : Option JsonValue → Bool
  | none => false
  | some v => jsTruthy v

/-- `createErrorResponse` of `src/jwt.ts`: always sets `error`; assigns
`message` / `details` only under a JavaScript truthiness test. -/
def createErrorResponse (error : String) (message : Option String)
    (details : Option JsonValue) : ErrorResponse :=
  { error := error
    message := if strOptTruthy message then message else none
    details := if jsonOptTruthy details then details else none }

/-! ## `RequestCoinCreationPayloadSchema` -/

def nameField : JsonValue → VResult String :=
  zString [strMin 1 "トークン名は1文字以上で入力してください。",
    strMax 50 "トークン名は50文字以内で入力してください。"]

def symbolField : JsonValue → VResult String :=
  zString [strMin 3 "トークンシンボルは3文字以上で入力してください。",
    strMax 8 "トークンシンボルは8文字以内で入力してください。",
    strPattern symbolRe "トークンシンボルは英大文字アルファベットと数字のみ使用できます。"]

def logoUrlField : JsonValue → VResult String :=
  zString [strPattern urlOk "ロゴURLは有効なURL形式で入力してください。"]

def descriptionField : JsonValue → VResult String :=
  zString [strMin 1 "コイン説明は1文字以上で入力してください。",
    strMax 1000 "コイン説明は1000文字以内で入力してください。"]

def reserveTokenAddressField : JsonValue → VResult String :=
  zString [strMin 1 "準備金トークンを選択してください。"]

def mintRoyaltyField : JsonValue → VResult ℚ :=
  zNumber [numInt, numMin 0 "ミントロイヤリティは0以上で入力してください。",
    numMax 1000 "ミントロイヤリティは10%以下で入力してください (1000 BPS)。"]

def burnRoyaltyField : JsonValue → VResult ℚ :=
  zNumber [numInt, numMin 0 "バーンロイヤリティは0以上で入力してください。",
    numMax 1000 "バーンロイヤリティは10%以下で入力してください (1000 BPS)。"]

def rangeField : JsonValue → VResult String :=
  zRefine (zString [])
    (fun val => digitsRe val && decide (0 < parseNatStr val))
    "ステップ範囲は正の整数で入力してください。"

def priceField : JsonValue → VResult String :=
  zRefine (zString [])
    (fun val => decRe val && !((parseDecStr val).blt 0))
    "ステップ価格は0以上の数値で入力してください。"

/-- One entry of `bonding_curve_steps`. -/
def bondingCurveStepSchema (v : JsonValue) : VResult BondingCurveStep :=
  match v with
  | .obj fs =>
    (zPair (reqField fs "range" rangeField)
      (reqField fs "price" priceField)).map fun p => ⟨p.1, p.2⟩
  | _ => .error [typeIssue "object" v]

def bondingStepsField : JsonValue → VResult (List BondingCurveStep) :=
  zArrayMin 1 "ボンディングカーブステップを1つ以上設定してください。" bondingCurveStepSchema

/-- `RequestCoinCreationPayloadSchema` of `src/jwt.ts`. -/
def RequestCoinCreationPayloadSchema (v : JsonValue) :
    VResult RequestCoinCreationPayload :=
  match v with
  | .obj fs =>
    (zPair (reqField fs "name" nameField)
      (zPair (reqField fs "symbol" symbolField)
        (zPair (optField fs "logo_url" logoUrlField)
          (zPair (reqField fs "description" descriptionField)
            (zPair (reqField fs "reserve_token_address" reserveTokenAddressField)
              (zPair (reqField fs "mint_royalty_bps" mintRoyaltyField)
                (zPair (reqField fs "burn_royalty_bps" burnRoyaltyField)
                  (zPair (reqField fs "bonding_curve_steps" bondingStepsField)
                    (reqField fs "manual_verification_requested" zBoolean))))))))).map
      fun p => ⟨p.1, p.2.1, p.2.2.1, p.2.2.2.1, p.2.2.2.2.1, p.2.2.2.2.2.1,
        p.2.2.2.2.2.2.1, p.2.2.2.2.2.2.2.1, p.2.2.2.2.2.2.2.2⟩
  | _ => .error [typeIssue "object" v]

/-! ## `ConfirmCoinCreationPayloadSchema` -/

/-- A zod-3 field parse result: the issues the field recorded, and the
field's value when the field did not abort.  In zod 3 a failing string
check (`.uuid`, `.regex`, `.min`, ...) is non-aborting: the issue is
recorded, the raw string is kept and the result is merely "dirty"; a wrong
type, an invalid enum value or a missing required key aborts (`INVALID`),
and no value survives it. -/
structure FieldRes (α : Type) where
  issues : List Issue
  val : Option α

/-- `z.string()` with a chain of checks, zod-3 semantics: a non-string
aborts with the type issue; a string keeps its raw value even when checks
fail (their issues are recorded, the result is dirty). -/
def zStringD (checks : List (String → Option String)) :
    JsonValue → FieldRes String := fun v =>
  match v with
  | .str s => ⟨runChecks checks s, some s⟩
  | _ => ⟨[typeIssue "string" v], none⟩

def statusEnumMessage : String :=
  "status は \x27confirmed\x27 または \x27reverted\x27 である必要があります。"

/-- `z.enum(["confirmed", "reverted"], \x7b errorMap \x7d)`: the custom
error map replaces every issue message for this field; an invalid enum
value aborts (it is `invalid_enum_value`, not a dirty check). -/
def statusField : JsonValue → FieldRes String := fun v =>
  match v with
  | .str s =>
    if s = "confirmed" || s = "reverted" then ⟨[], some s⟩
    else ⟨[⟨[], statusEnumMessage⟩], none⟩
  | _ => ⟨[⟨[], statusEnumMessage⟩], none⟩

def coinIdField : JsonValue → FieldRes String :=
  zStringD [strPattern uuidOk "無効な coin_id 形式です。"]

def transactionHashField : JsonValue → FieldRes String :=
  zStringD [strPattern (hexAddrOk 64) "無効なトランザクションハッシュ形式です。"]

def contractAddressField : JsonValue → FieldRes String :=
  zStringD [strPattern (hexAddrOk 40) "無効なコントラクトアドレス形式です。"]

def prefixKeyD {α : Type} (k : String) (r : FieldRes α) : FieldRes α :=
  ⟨r.issues.map fun i => ⟨.key k :: i.path, i.message⟩, r.val⟩

/-- A required field of an object, zod-3 semantics: a missing key aborts
with the `Required` issue at that key's path. -/
def reqFieldD {α : Type} (fs : List (String × JsonValue)) (k : String)
    (f : JsonValue → FieldRes α) : FieldRes α :=
  match fs.lookup k with
  | none => ⟨[⟨[.key k], "Required"⟩], none⟩
  | some v => prefixKeyD k (f v)

/-- An `.optional()` field of an object: a missing key succeeds with no
value; a present key delegates to the inner field. -/
def optFieldD {α : Type} (fs : List (String × JsonValue)) (k : String)
    (f : JsonValue → FieldRes α) : FieldRes (Option α) :=
  match fs.lookup k with
  | none => ⟨[], some none⟩
  | some v =>
    let r := prefixKeyD k (f v)
    ⟨r.issues, r.val.map some⟩

/-- The per-field stage of `ConfirmCoinCreationPayloadSchema` (the
`z.object(...)` before `.superRefine`).  Every field is parsed and every
issue collected in declaration order; the object's value survives (possibly
dirty, with the raw strings of failed checks kept) unless some field
aborted. -/
def confirmObjectStage (v : JsonValue) : FieldRes ConfirmCoinCreationPayload :=
  match v with
  | .obj fs =>
    let r1 := reqFieldD fs "coin_id" coinIdField
    let r2 := reqFieldD fs "transaction_hash" transactionHashField
    let r3 := reqFieldD fs "status" statusField
    let r4 := optFieldD fs "contract_address" contractAddressField
    let r5 := optFieldD fs "error_message" (zStringD [])
    ⟨r1.issues ++ r2.issues ++ r3.issues ++ r4.issues ++ r5.issues,
      match r1.val, r2.val, r3.val, r4.val, r5.val with
      | some a, some b, some c, some d, some e => some ⟨a, b, c, d, e⟩
      | _, _, _, _, _ => none⟩
  | _ => ⟨[typeIssue "object" v], none⟩

/-- JavaScript falsiness of an optional string (`undefined` and `""` are
falsy). -/
def strOptFalsy : Option String → Bool
  | none => true
  | some s => s == ""

/-- The `.superRefine` of `ConfirmCoinCreationPayloadSchema`: both
directions of the status / contract_address pairing are checked and each
violated direction adds one issue at the `contract_address` path. -/
def confirmRefineIssues (p : ConfirmCoinCreationPayload) : List Issue :=
  (if p.status == "confirmed" && strOptFalsy p.contract_address then
    [⟨[.key "contract_address"],
      "status が \x27confirmed\x27 の場合、contract_address は必須です。"⟩]
   else [])
  ++ (if p.status == "reverted" && !strOptFalsy p.contract_address then
    [⟨[.key "contract_address"],
      "status が \x27reverted\x27 の場合、contract_address は指定できません。"⟩]
   else [])

/-- `ConfirmCoinCreationPayloadSchema` of `src/jwt.ts`, zod-3 semantics:
the `.superRefine` runs whenever the object stage did not abort — also on a
dirty result whose string checks failed — and its issues are appended after
the field issues; an aborted object stage skips the refinement. -/
def ConfirmCoinCreationPayloadSchema (v : JsonValue) :
    VResult ConfirmCoinCreationPayload :=
  match (confirmObjectStage v).val with
  | none => .error (confirmObjectStage v).issues
  | some p =>
    match (confirmObjectStage v).issues ++ confirmRefineIssues p with
    | [] => .ok p
    | i :: is => .error (i :: is)

/-! ## Round-trip: auxiliary lemmas -/

/-- What may legally follow a serialized value: nothing, or a separator /
closing delimiter.  (Ensures number and digit runs are not extended.) -/
def numBoundary (rest : Chars) : Prop :=
  match rest with
  | [] => True
  | c :: _ => c = ',' ∨ c = ']' ∨ c = '\x7d'

theorem isDigit_ne {c : Char} (h : c.isDigit = true) (x : Char)
    (hx : x.isDigit = false) : c ≠ x := by
  intro he
  subst he
  rw [h] at hx
  cases hx

theorem digitCh_isDigit (d : Nat) : (digitCh d).isDigit = true := by
  unfold digitCh
  repeat' split
  all_goals decide

theorem d2n_digitCh {d : Nat} (h : d < 10) : d2n (digitCh d) = d := by
  interval_cases d <;> decide

theorem skipWs_not_ws {c : Char} (h : isWs c = false) (cs : Chars) :
    skipWs (c :: cs) = c :: cs := by
  rw [skipWs, h]
  rfl

theorem isWs_eq_false_of_isDigit {c : Char} (h : c.isDigit = true) :
    isWs c = false := by
  have h1 := isDigit_ne h ' ' (by decide)
  have h2 := isDigit_ne h '\t' (by decide)
  have h3 := isDigit_ne h '\n' (by decide)
  have h4 := isDigit_ne h '\r' (by decide)
  simp [isWs, h1, h2, h3, h4]

/-- Head shape required before a digit run stops. -/
def nonDigitHead (rest : Chars) : Prop :=
  match rest with
  | [] => True
  | c :: _ => c.isDigit = false

theorem nonDigitHead_of_numBoundary {rest : Chars} (h : numBoundary rest) :
    nonDigitHead rest := by
  cases rest with
  | nil => trivial
  | cons c cs =>
    rcases h with h | h | h <;> subst h
    · show (',' : Char).isDigit = false
      decide
    · show (']' : Char).isDigit = false
      decide
    · show ('\x7d' : Char).isDigit = false
      decide

theorem parseDigitsAux_spec :
    ∀ (ds : Chars) (rest : Chars) (acc n : Nat),
      (∀ c ∈ ds, c.isDigit = true) → nonDigitHead rest →
      parseDigitsAux (ds ++ rest) acc n =
        (ds.foldl (fun a c => a * 10 + d2n c) acc, n + ds.length, rest) := by
  intro ds
  induction ds with
  | nil =>
    intro rest acc n _ hrest
    cases rest with
    | nil => rfl
    | cons c cs =>
      simp only [List.nil_append, parseDigitsAux]
      rw [hrest]
      rfl
  | cons c cs ih =>
    intro rest acc n hds hrest
    have hc : c.isDigit = true := hds c (by simp)
    simp only [List.cons_append, parseDigitsAux, hc, if_true, List.append_eq]
    rw [ih rest _ _ (fun x hx => hds x (by simp [hx])) hrest]
    simp only [List.foldl_cons, List.length_cons, Prod.mk.injEq, true_and,
      and_true]
    omega

theorem natDigitsStr_spec (n : Nat) :
    natDigitsStr n ≠ [] ∧ (∀ c ∈ natDigitsStr n, c.isDigit = true) ∧
      ∀ acc, (natDigitsStr n).foldl (fun a c => a * 10 + d2n c) acc =
        acc * 10 ^ (natDigitsStr n).length + n := by
  induction n using Nat.strong_induction_on with
  | _ n ih =>
    by_cases h : n < 10
    · rw [natDigitsStr, dif_pos h]
      refine ⟨by simp, ?_, ?_⟩
      · intro c hc
        simp only [List.mem_singleton] at hc
        subst hc
        exact digitCh_isDigit n
      · intro acc
        simp [d2n_digitCh h]
    · rw [natDigitsStr, dif_neg h]
      obtain ⟨hne, hdig, hval⟩ := ih (n / 10) (Nat.div_lt_self (by omega) (by omega))
      refine ⟨by simp, ?_, ?_⟩
      · intro c hc
        simp only [List.mem_append, List.mem_singleton] at hc
        rcases hc with hc | hc
        · exact hdig c hc
        · subst hc
          exact digitCh_isDigit _
      · intro acc
        rw [List.foldl_append, hval acc]
        simp only [List.foldl_cons, List.foldl_nil, List.length_append,
          List.length_singleton]
        rw [d2n_digitCh (Nat.mod_lt n (by omega))]
        rw [pow_succ]
        have := Nat.div_add_mod n 10
        ring_nf
        omega

theorem natDigitsStr_length_le {n k : Nat} (hk : 1 ≤ k) (h : n < 10 ^ k) :
    (natDigitsStr n).length ≤ k := by
  induction n using Nat.strong_induction_on generalizing k with
  | _ n ih =>
    by_cases h10 : n < 10
    · rw [natDigitsStr, dif_pos h10]
      simpa using hk
    · rw [natDigitsStr, dif_neg h10]
      have hk2 : 2 ≤ k := by
        by_contra hc
        have : k = 1 := by omega
        subst this
        simp only [pow_one] at h
        omega
      have hdiv : n / 10 < 10 ^ (k - 1) := by
        rw [Nat.div_lt_iff_lt_mul (by omega)]
        calc n < 10 ^ k := h
        _ = 10 ^ (k - 1) * 10 := by
          rw [← pow_succ]
          congr 1
          omega
      have := ih (n / 10) (Nat.div_lt_self (by omega) (by omega)) (by omega) hdiv
      simp only [List.length_append, List.length_singleton]
      omega

theorem zeroPad_spec {k n : Nat} (hlen : (natDigitsStr n).length ≤ k) :
    zeroPad k n ≠ [] ∧ (∀ c ∈ zeroPad k n, c.isDigit = true) ∧
      (zeroPad k n).length = k ∧
      ∀ acc, (zeroPad k n).foldl (fun a c => a * 10 + d2n c) acc =
        acc * 10 ^ k + n := by
  obtain ⟨hne, hdig, hval⟩ := natDigitsStr_spec n
  have hrep : ∀ (j : Nat) (acc : Nat),
      (List.replicate j '0').foldl (fun a c => a * 10 + d2n c) acc =
        acc * 10 ^ j := by
    intro j
    induction j with
    | zero => intro acc; simp
    | succ j ihj =>
      intro acc
      rw [List.replicate_succ, List.foldl_cons, ihj]
      have : d2n '0' = 0 := by decide
      rw [this, pow_succ]
      ring
  refine ⟨?_, ?_, ?_, ?_⟩
  · intro hnil
    rw [zeroPad] at hnil
    rcases List.append_eq_nil.mp hnil with ⟨_, h2⟩
    exact hne h2
  · intro c hc
    rw [zeroPad, List.mem_append] at hc
    rcases hc with hc | hc
    · rw [List.eq_of_mem_replicate hc]
      decide
    · exact hdig c hc
  · rw [zeroPad, List.length_append, List.length_replicate]
    omega
  · intro acc
    rw [zeroPad, List.foldl_append, hrep, hval]
    rw [mul_assoc, ← pow_add]
    have hkl : k - (natDigitsStr n).length + (natDigitsStr n).length = k := by
      omega
    rw [hkl]

theorem parseStringRest_quote (cs : Chars) :
    parseStringRest ('"' :: cs) = .ok ([], cs) := by
  rw [parseStringRest.eq_def]
  simp

theorem parseStringRest_escQuote (cs : Chars) :
    parseStringRest ('\\' :: '"' :: cs) =
      (parseStringRest cs).map (fun r => ('"' :: r.1, r.2)) := by
  rw [parseStringRest.eq_def]
  simp only [if_neg (by decide : ¬('\\' : Char) = '"'), if_pos rfl]
  rw [if_neg (by decide : ¬('"' : Char) = 'u')]
  rfl

theorem parseStringRest_escBackslash (cs : Chars) :
    parseStringRest ('\\' :: '\\' :: cs) =
      (parseStringRest cs).map (fun r => ('\\' :: r.1, r.2)) := by
  rw [parseStringRest.eq_def]
  simp only [if_neg (by decide : ¬('\\' : Char) = '"'), if_pos rfl]
  rw [if_neg (by decide : ¬('\\' : Char) = 'u')]
  rfl

theorem parseStringRest_plain (c : Char) (cs : Chars) (hc : ¬ c = '"')
    (hb : ¬ c = '\\') :
    parseStringRest (c :: cs) =
      (parseStringRest cs).map (fun r => (c :: r.1, r.2)) := by
  rw [parseStringRest.eq_def]
  simp only [if_neg hc, if_neg hb]

theorem parseStringRest_escStr (l : Chars) (rest : Chars) :
    parseStringRest (escStr l ++ '"' :: rest) = .ok (l, rest) := by
  induction l with
  | nil => exact parseStringRest_quote rest
  | cons c l ih =>
    show parseStringRest ((escChar c ++ escStr l) ++ '"' :: rest) = _
    by_cases hc : c = '"'
    · subst hc
      rw [show escChar '"' = ['\\', '"'] from rfl]
      simp only [List.cons_append, List.nil_append]
      rw [parseStringRest_escQuote, ih]
      rfl
    · by_cases hb : c = '\\'
      · subst hb
        rw [show escChar '\\' = ['\\', '\\'] from rfl]
        simp only [List.cons_append, List.nil_append]
        rw [parseStringRest_escBackslash, ih]
        rfl
      · rw [show escChar c = [c] from by rw [escChar, if_neg hc, if_neg hb]]
        simp only [List.cons_append, List.nil_append]
        rw [parseStringRest_plain c _ hc hb, ih]
        rfl

theorem numBoundary_head {c : Char} {cs : Chars} (h : numBoundary (c :: cs)) :
    c.isDigit = false ∧ c ≠ '.' ∧ c ≠ 'e' ∧ c ≠ 'E' := by
  rcases h with h | h | h <;> subst h <;>
    exact ⟨by decide, by decide, by decide, by decide⟩

theorem parseExpOpt_boundary (q : ℚ) {rest : Chars} (h : numBoundary rest) :
    parseExpOpt q rest = .ok (q, rest) := by
  cases rest with
  | nil => rfl
  | cons c cs =>
    obtain ⟨_, _, he, hE⟩ := numBoundary_head h
    rw [parseExpOpt, if_neg]
    simp [he, hE]
theorem parseNumAbs_intRun (n : Nat) (rest : Chars) (hrest : numBoundary rest) :
    parseNumAbs (natDigitsStr n ++ rest) = .ok ((n : ℚ), rest) := by
  obtain ⟨hne, hdig, hval⟩ := natDigitsStr_spec n
  cases hds : natDigitsStr n with
  | nil => exact absurd hds hne
  | cons c cs' =>
    have hc : c.isDigit = true := hdig c (by rw [hds]; simp)
    rw [List.cons_append, parseNumAbs.eq_def]
    simp only [hc, if_true]
    rw [← List.cons_append, ← hds,
      parseDigitsAux_spec _ rest 0 0 hdig (nonDigitHead_of_numBoundary hrest),
      hval 0]
    simp only [Nat.zero_add, Nat.zero_mul, zero_mul, zero_add]
    cases rest with
    | nil => exact parseExpOpt_boundary _ trivial
    | cons c1 cs2 =>
      obtain ⟨_, hdot, _, _⟩ := numBoundary_head hrest
      simp only [hdot, if_false]
      exact parseExpOpt_boundary _ hrest

theorem parseNumAbs_fracRun (i f k : Nat)
    (hlen : (natDigitsStr f).length ≤ k) (rest : Chars) (hrest : numBoundary rest) :
    parseNumAbs (natDigitsStr i ++ '.' :: (zeroPad k f ++ rest)) =
      .ok ((i : ℚ) + (f : ℚ) / 10 ^ k, rest) := by
  obtain ⟨hnei, hdigi, hvali⟩ := natDigitsStr_spec i
  obtain ⟨hnez, hdigz, hlenz, hvalz⟩ := zeroPad_spec (n := f) hlen
  cases hds : natDigitsStr i with
  | nil => exact absurd hds hnei
  | cons c cs' =>
    have hc : c.isDigit = true := hdigi c (by rw [hds]; simp)
    rw [List.cons_append, parseNumAbs.eq_def]
    simp only [hc, if_true]
    rw [← List.cons_append, ← hds,
      parseDigitsAux_spec _ ('.' :: (zeroPad k f ++ rest)) 0 0 hdigi
        (by show ('.' : Char).isDigit = false; decide),
      hvali 0]
    simp only [Nat.zero_add, Nat.zero_mul, zero_mul, zero_add, if_true]
    cases hzp : zeroPad k f with
    | nil => exact absurd hzp hnez
    | cons d zp' =>
      have hd : d.isDigit = true := hdigz d (by rw [hzp]; simp)
      rw [List.cons_append]
      simp only [hd, if_true]
      rw [← List.cons_append, ← hzp,
        parseDigitsAux_spec _ rest 0 0 hdigz (nonDigitHead_of_numBoundary hrest),
        hvalz 0, hlenz]
      simp only [Nat.zero_add, Nat.zero_mul, zero_mul, zero_add]
      exact parseExpOpt_boundary _ hrest

theorem serNumAbs_head (q : ℚ) :
    ∃ c cs, serNumAbs q = c :: cs ∧ c.isDigit = true := by
  rw [serNumAbs]
  split
  · obtain ⟨hne, hdig, _⟩ := natDigitsStr_spec q.num.toNat
    cases hds : natDigitsStr q.num.toNat with
    | nil => exact absurd hds hne
    | cons c cs => exact ⟨c, cs, rfl, hdig c (by rw [hds]; simp)⟩
  · obtain ⟨hne, hdig, _⟩ :=
      natDigitsStr_spec ((q * 10 ^ q.den).num.toNat / 10 ^ q.den)
    cases hds : natDigitsStr ((q * 10 ^ q.den).num.toNat / 10 ^ q.den) with
    | nil => exact absurd hds hne
    | cons c cs =>
      exact ⟨c, cs ++ '.' :: zeroPad q.den ((q * 10 ^ q.den).num.toNat % 10 ^ q.den),
        by simp, hdig c (by rw [hds]; simp)⟩

theorem parseNumAbs_serNumAbs (q : ℚ) (h0 : 0 ≤ q)
    (hd : (q * 10 ^ q.den).den = 1) (rest : Chars) (hrest : numBoundary rest) :
    parseNumAbs (serNumAbs q ++ rest) = .ok (q, rest) := by
  by_cases hden : q.den = 1
  · rw [serNumAbs, if_pos hden, parseNumAbs_intRun _ rest hrest]
    have h1 : ((q.num.toNat : ℤ)) = q.num :=
      Int.toNat_of_nonneg (Rat.num_nonneg.mpr h0)
    have h2 : ((q.num : ℚ)) = q := Rat.coe_int_num_of_den_eq_one hden
    have h3 : ((q.num.toNat : ℚ)) = q := by
      rw [← h2]
      exact_mod_cast congrArg (fun z : ℤ => (z : ℚ)) h1
    rw [h3]
  · rw [serNumAbs, if_neg hden, List.append_assoc, List.cons_append]
    have hkpos : 0 < 10 ^ q.den := Nat.pos_pow_of_pos _ (by omega)
    have hflt : (q * 10 ^ q.den).num.toNat % 10 ^ q.den < 10 ^ q.den :=
      Nat.mod_lt _ hkpos
    have hk1 : 1 ≤ q.den := q.den_pos
    have hlen := natDigitsStr_length_le hk1 hflt
    rw [parseNumAbs_fracRun _ _ _ hlen rest hrest]
    have hqnum : (((q * 10 ^ q.den).num.toNat : ℚ)) = q * 10 ^ q.den := by
      have hnn : 0 ≤ (q * 10 ^ q.den).num := by
        rw [Rat.num_nonneg]
        positivity
      have h1 : (((q * 10 ^ q.den).num.toNat : ℤ)) = (q * 10 ^ q.den).num :=
        Int.toNat_of_nonneg hnn
      have h2 : (((q * 10 ^ q.den).num : ℚ)) = q * 10 ^ q.den :=
        Rat.coe_int_num_of_den_eq_one hd
      rw [← h2]
      exact_mod_cast congrArg (fun z : ℤ => (z : ℚ)) h1
    have hdm := Nat.div_add_mod ((q * 10 ^ q.den).num.toNat) (10 ^ q.den)
    have hcast : ((10 : ℚ) ^ q.den) * (((q * 10 ^ q.den).num.toNat / 10 ^ q.den : Nat) : ℚ) +
        (((q * 10 ^ q.den).num.toNat % 10 ^ q.den : Nat) : ℚ) =
        (((q * 10 ^ q.den).num.toNat : Nat) : ℚ) := by
      exact_mod_cast congrArg (fun z : Nat => (z : ℚ)) hdm
    have hpow : ((10 : ℚ) ^ q.den) ≠ 0 := by positivity
    congr 1
    rw [hqnum] at hcast
    field_simp
    ring_nf
    ring_nf at hcast
    linarith [hcast]

theorem parseNumber_serNum (q : ℚ) (hd : (q * 10 ^ q.den).den = 1)
    (rest : Chars) (hrest : numBoundary rest) :
    parseNumber (serNum q ++ rest) = .ok (q, rest) := by
  by_cases hneg : q < 0
  · rw [serNum, if_pos hneg, List.cons_append, parseNumber.eq_def]
    simp only [if_pos rfl]
    have h0 : 0 ≤ -q := by linarith
    have hd' : ((-q) * 10 ^ (-q).den).den = 1 := by
      rw [Rat.neg_den, show (-q) * (10 : ℚ) ^ q.den = -(q * 10 ^ q.den) from by ring,
        Rat.neg_den]
      exact hd
    rw [parseNumAbs_serNumAbs (-q) h0 hd' rest hrest]
    simp [Except.map]
  · have h0 : 0 ≤ q := not_lt.mp hneg
    rw [serNum, if_neg hneg]
    obtain ⟨c, cs, hser, hc⟩ := serNumAbs_head q
    rw [hser, List.cons_append, parseNumber.eq_def]
    simp only [isDigit_ne hc '-' (by decide), if_false]
    rw [← List.cons_append, ← hser]
    exact parseNumAbs_serNumAbs q h0 hd rest hrest

mutual

theorem jsize_le_len (v : JsonValue) : jsize v ≤ (serChars v).length := by
  cases v with
  | null => simp [jsize, serChars]
  | bool b => cases b <;> simp [jsize, serChars]
  | num q =>
    have h : serChars (.num q) = serNum q := by rw [serChars]
    rw [h]
    obtain ⟨c, cs, hser, hc⟩ := serNumAbs_head q
    rw [jsize]
    by_cases hneg : q < 0 <;> simp [serNum, hneg, hser]
  | str s => simp [jsize, serChars]
  | arr xs =>
    have := jsizeItems_le_len xs
    rw [jsize, serChars]
    simp only [List.length_cons, List.length_append]
    omega
  | obj fs =>
    have := jsizeFields_le_len fs
    rw [jsize, serChars]
    simp only [List.length_cons, List.length_append]
    omega

theorem jsizeItems_le_len (xs : List JsonValue) :
    jsizeItems xs ≤ (serItemsChars xs).length + 1 := by
  cases xs with
  | nil => simp [jsizeItems]
  | cons x ys =>
    cases ys with
    | nil =>
      have := jsize_le_len x
      rw [jsizeItems, jsizeItems, serItemsChars]
      omega
    | cons y zs =>
      have h1 := jsize_le_len x
      have h2 := jsizeItems_le_len (y :: zs)
      rw [jsizeItems, serItemsChars]
      simp only [List.length_append, List.length_cons]
      omega

theorem jsizeFields_le_len (fs : List (String × JsonValue)) :
    jsizeFields fs ≤ (serFieldsChars fs).length + 1 := by
  cases fs with
  | nil => simp [jsizeFields]
  | cons f gs =>
    cases gs with
    | nil =>
      have := jsize_le_len f.2
      rw [jsizeFields, jsizeFields, serFieldsChars]
      simp only [List.length_cons, List.length_append]
      omega
    | cons g hs =>
      have h1 := jsize_le_len f.2
      have h2 := jsizeFields_le_len (g :: hs)
      rw [jsizeFields, serFieldsChars]
      simp only [List.length_append, List.length_cons]
      omega

end

theorem insertField_fresh (fs : List (String × JsonValue)) (k : String)
    (v : JsonValue) (h : fs.all (fun f => f.1 ≠ k)) :
    insertField fs k v = fs ++ [(k, v)] := by
  induction fs with
  | nil => rfl
  | cons f gs ih =>
    simp only [List.all_cons, Bool.and_eq_true, decide_eq_true_eq] at h
    obtain ⟨h1, h2⟩ := h
    obtain ⟨k', v'⟩ := f
    rw [insertField]
    rw [if_neg (by simpa using h1)]
    rw [ih (by simpa using h2)]
    rfl

theorem dedupFields_go (fs acc : List (String × JsonValue))
    (hnd : nodupKeys fs = true)
    (hdisj : ∀ f ∈ fs, acc.all (fun g => g.1 ≠ f.1)) :
    fs.foldl (fun a f => insertField a f.1 f.2) acc = acc ++ fs := by
  induction fs generalizing acc with
  | nil => simp
  | cons f gs ih =>
    rw [List.foldl_cons, insertField_fresh acc f.1 f.2 (hdisj f (by simp))]
    rw [nodupKeys] at hnd
    simp only [Bool.and_eq_true, Bool.not_eq_true'] at hnd
    obtain ⟨hnotin, hnd'⟩ := hnd
    have hdj : ∀ g ∈ gs, ((acc ++ [(f.1, f.2)]).all (fun g' => g'.1 ≠ g.1)) = true := by
      intro g hg
      simp only [List.all_append, List.all_cons, List.all_nil, Bool.and_eq_true,
        decide_eq_true_eq]
      refine ⟨?_, ?_, trivial⟩
      · have := hdisj g (by simp [hg])
        simpa using this
      · intro he
        have hany : gs.any (fun f' => f'.1 = f.1) = true := by
          rw [List.any_eq_true]
          exact ⟨g, hg, by simp [he]⟩
        rw [hany] at hnotin
        cases hnotin
    rw [ih _ hnd' hdj]
    simp

theorem dedupFields_nodup (fs : List (String × JsonValue))
    (hnd : nodupKeys fs = true) : dedupFields fs = fs := by
  rw [dedupFields, dedupFields_go fs [] hnd (by intro f _; simp)]
  rfl

theorem jsize_pos (v : JsonValue) : 1 ≤ jsize v := by
  cases v <;> rw [jsize] <;> omega

theorem serNum_head (q : ℚ) :
    ∃ c cs, serNum q = c :: cs ∧ (c = '-' ∨ c.isDigit = true) := by
  rw [serNum]
  split
  · exact ⟨'-', _, rfl, Or.inl rfl⟩
  · obtain ⟨c, cs, hs, hc⟩ := serNumAbs_head q
    exact ⟨c, cs, hs, Or.inr hc⟩

theorem serChars_head_facts (v : JsonValue) :
    ∃ c cs, serChars v = c :: cs ∧ isWs c = false ∧ c ≠ ']' := by
  cases v with
  | null => exact ⟨'n', _, by rw [serChars], by decide, by decide⟩
  | bool b =>
    cases b
    · exact ⟨'f', _, by rw [serChars], by decide, by decide⟩
    · exact ⟨'t', _, by rw [serChars], by decide, by decide⟩
  | num q =>
    obtain ⟨c, cs, hser, hc⟩ := serNum_head q
    refine ⟨c, cs, by rw [serChars, hser], ?_, ?_⟩
    · rcases hc with hc | hc
      · subst hc; decide
      · exact isWs_eq_false_of_isDigit hc
    · rcases hc with hc | hc
      · subst hc; decide
      · exact isDigit_ne hc ']' (by decide)
  | str s => exact ⟨'"', _, by rw [serChars], by decide, by decide⟩
  | arr xs => exact ⟨'[', _, by rw [serChars], by decide, by decide⟩
  | obj fs => exact ⟨'\x7b', _, by rw [serChars], by decide, by decide⟩

theorem parseItems_ser_nil (rest : Chars) (fuel : Nat) (hf : 1 ≤ fuel) :
    parseArrayItems fuel (serItemsChars [] ++ ']' :: rest) = .ok ([], rest) := by
  obtain ⟨f, rfl⟩ : ∃ f, fuel = f + 1 := ⟨fuel - 1, by omega⟩
  rw [show serItemsChars [] = [] from rfl]
  simp [parseArrayItems, skipWs, isWs]

theorem parseFields_ser_nil (rest : Chars) (fuel : Nat) (hf : 1 ≤ fuel) :
    parseObjItems fuel (serFieldsChars [] ++ '\x7d' :: rest) = .ok ([], rest) := by
  obtain ⟨f, rfl⟩ : ∃ f, fuel = f + 1 := ⟨fuel - 1, by omega⟩
  rw [show serFieldsChars [] = [] from rfl]
  simp [parseObjItems, skipWs, isWs]

/-- Round-trip of the serializer through the parser, bundled over a size
bound for the induction. -/
theorem roundtrip_bundle (N : Nat) :
    (∀ v : JsonValue, jsize v ≤ N → ∀ rest, numBoundary rest →
      ∀ fuel, 2 * jsize v ≤ fuel → jsonWf v = true →
      parseValue fuel (serChars v ++ rest) = .ok (v, rest)) ∧
    (∀ xs : List JsonValue, jsizeItems xs ≤ N → ∀ rest fuel,
      2 * jsizeItems xs + 1 ≤ fuel → jsonWfItems xs = true →
      parseArrayItems fuel (serItemsChars xs ++ ']' :: rest) = .ok (xs, rest)) ∧
    (∀ fs : List (String × JsonValue), jsizeFields fs ≤ N → ∀ rest fuel,
      2 * jsizeFields fs + 1 ≤ fuel → jsonWfFields fs = true →
      parseObjItems fuel (serFieldsChars fs ++ '\x7d' :: rest) = .ok (fs, rest)) := by
  induction N with
  | zero =>
    refine ⟨?_, ?_, ?_⟩
    · intro v hsz
      have := jsize_pos v
      omega
    · intro xs hsz rest fuel hf hwf
      cases xs with
      | nil => exact parseItems_ser_nil rest fuel (by omega)
      | cons x ys =>
        rw [jsizeItems] at hsz
        omega
    · intro fs hsz rest fuel hf hwf
      cases fs with
      | nil => exact parseFields_ser_nil rest fuel (by omega)
      | cons kv gs =>
        rw [jsizeFields] at hsz
        omega
  | succ N ih =>
    obtain ⟨ihV, ihI, ihF⟩ := ih
    refine ⟨?_, ?_, ?_⟩
    · intro v hsz rest hrest fuel hf hwf
      obtain ⟨f, rfl⟩ : ∃ f, fuel = f + 1 :=
        ⟨fuel - 1, by have := jsize_pos v; omega⟩
      cases v with
      | null =>
        rw [show serChars .null = ['n', 'u', 'l', 'l'] from rfl]
        simp [parseValue, skipWs, isWs]
      | bool b =>
        cases b
        · rw [show serChars (.bool false) = ['f', 'a', 'l', 's', 'e'] from rfl]
          simp [parseValue, skipWs, isWs]
        · rw [show serChars (.bool true) = ['t', 'r', 'u', 'e'] from rfl]
          simp [parseValue, skipWs, isWs]
      | num q =>
        simp only [jsonWf, decide_eq_true_eq] at hwf
        rw [show serChars (.num q) = serNum q from by rw [serChars]]
        obtain ⟨c, cs, hser, hc⟩ := serNum_head q
        have hne : c ≠ 'n' ∧ c ≠ 't' ∧ c ≠ 'f' ∧ c ≠ '"' ∧ c ≠ '[' ∧
            c ≠ '\x7b' ∧ isWs c = false ∧ (c = '-' || c.isDigit) = true := by
          rcases hc with hc | hc
          · subst hc
            exact ⟨by decide, by decide, by decide, by decide, by decide,
              by decide, by decide, by decide⟩
          · exact ⟨isDigit_ne hc 'n' (by decide), isDigit_ne hc 't' (by decide),
              isDigit_ne hc 'f' (by decide), isDigit_ne hc '"' (by decide),
              isDigit_ne hc '[' (by decide), isDigit_ne hc '\x7b' (by decide),
              isWs_eq_false_of_isDigit hc, by simp [hc]⟩
        obtain ⟨h1, h2, h3, h4, h5, h6, h7, h8⟩ := hne
        rw [hser, List.cons_append]
        simp only [parseValue]
        rw [skipWs_not_ws h7]
        simp only [h1, h2, h3, h4, h5, h6, h8, if_false, if_true]
        rw [← List.cons_append, ← hser, parseNumber_serNum q hwf rest hrest]
        rfl
      | str s =>
        rw [show serChars (.str s) = '"' :: (escStr s.data ++ ['"']) from by
          rw [serChars]]
        simp only [List.cons_append, List.append_assoc, List.singleton_append]
        simp [parseValue, skipWs, isWs]
        rw [parseStringRest_escStr]
        rfl
      | arr xs =>
        rw [jsize] at hf hsz
        simp only [jsonWf] at hwf
        rw [show serChars (.arr xs) = '[' :: (serItemsChars xs ++ [']']) from by
          rw [serChars]]
        simp only [List.cons_append, List.append_assoc, List.singleton_append]
        simp only [parseValue]
        rw [skipWs_not_ws (by decide)]
        simp only [if_false, if_true, show ('[' : Char) ≠ 'n' from by decide,
          show ('[' : Char) ≠ 't' from by decide,
          show ('[' : Char) ≠ 'f' from by decide,
          show ('[' : Char) ≠ '"' from by decide, if_pos rfl, List.nil_append]
        rw [ihI xs (by omega) rest f (by omega) hwf]
        rfl
      | obj fs =>
        rw [jsize] at hf hsz
        simp only [jsonWf, Bool.and_eq_true] at hwf
        obtain ⟨hnd, hwfs⟩ := hwf
        rw [show serChars (.obj fs) = '\x7b' :: (serFieldsChars fs ++ ['\x7d'])
          from by rw [serChars]]
        simp only [List.cons_append, List.append_assoc, List.singleton_append]
        simp only [parseValue]
        rw [skipWs_not_ws (by decide)]
        simp only [if_false, if_true, show ('\x7b' : Char) ≠ 'n' from by decide,
          show ('\x7b' : Char) ≠ 't' from by decide,
          show ('\x7b' : Char) ≠ 'f' from by decide,
          show ('\x7b' : Char) ≠ '"' from by decide,
          show ('\x7b' : Char) ≠ '[' from by decide, if_pos rfl, List.nil_append]
        rw [ihF fs (by omega) rest f (by omega) hwfs]
        simp only [Except.map, dedupFields_nodup fs hnd]
    · intro xs hsz rest fuel hf hwf
      obtain ⟨f, rfl⟩ : ∃ f, fuel = f + 1 := ⟨fuel - 1, by omega⟩
      cases xs with
      | nil => exact parseItems_ser_nil rest (f + 1) (by omega)
      | cons x ys =>
        simp only [jsonWfItems, Bool.and_eq_true] at hwf
        obtain ⟨hwx, hwys⟩ := hwf
        obtain ⟨c, cs, hser, hws, hbr⟩ := serChars_head_facts x
        cases ys with
        | nil =>
          rw [jsizeItems, jsizeItems] at hf hsz
          rw [show serItemsChars [x] = serChars x from by rw [serItemsChars]]
          rw [hser, List.cons_append]
          simp only [parseArrayItems]
          rw [skipWs_not_ws hws]
          simp only [hbr, if_false]
          rw [← List.cons_append, ← hser,
            ihV x (by omega) (']' :: rest) (Or.inr (Or.inl rfl)) f (by omega) hwx]
          simp [@skipWs_not_ws ']' (by decide)]
        | cons y zs =>
          rw [jsizeItems, jsizeItems] at hf hsz
          rw [show serItemsChars (x :: y :: zs) =
                serChars x ++ ',' :: serItemsChars (y :: zs) from by
            rw [serItemsChars]]
          rw [hser]
          simp only [List.cons_append, List.append_assoc]
          simp only [parseArrayItems]
          rw [skipWs_not_ws hws]
          simp only [hbr, if_false]
          rw [← List.cons_append, ← hser,
            ihV x (by omega)
              (',' :: (serItemsChars (y :: zs) ++ ']' :: rest))
              (Or.inl rfl) f (by omega) hwx]
          simp only [@skipWs_not_ws ',' (by decide), if_pos rfl,
            show (',' : Char) = ']' ↔ False from by simp]
          rw [ihI (y :: zs) (by rw [jsizeItems]; omega) rest f
            (by rw [jsizeItems]; omega) hwys]
          rfl
    · intro fs hsz rest fuel hf hwf
      obtain ⟨f, rfl⟩ : ∃ f, fuel = f + 1 := ⟨fuel - 1, by omega⟩
      cases fs with
      | nil => exact parseFields_ser_nil rest (f + 1) (by omega)
      | cons kv gs =>
        simp only [jsonWfFields, Bool.and_eq_true] at hwf
        obtain ⟨hwv, hwgs⟩ := hwf
        cases gs with
        | nil =>
          rw [jsizeFields, jsizeFields] at hf hsz
          rw [show serFieldsChars [kv] =
                '"' :: (escStr kv.1.data ++ '"' :: ':' :: serChars kv.2) from by
            rw [serFieldsChars]]
          simp only [List.cons_append, List.append_assoc]
          simp only [parseObjItems]
          rw [skipWs_not_ws (by decide)]
          simp only [if_false, if_pos rfl,
            show ('"' : Char) ≠ '\x7d' from by decide]
          rw [parseStringRest_escStr]
          simp only [@skipWs_not_ws ':' (by decide), if_pos rfl]
          rw [ihV kv.2 (by omega) ('\x7d' :: rest) (Or.inr (Or.inr rfl)) f
            (by omega) hwv]
          simp [@skipWs_not_ws '\x7d' (by decide)]
        | cons g hs =>
          rw [jsizeFields, jsizeFields] at hf hsz
          rw [show serFieldsChars (kv :: g :: hs) =
                ('"' :: (escStr kv.1.data ++ '"' :: ':' :: serChars kv.2)) ++
                  ',' :: serFieldsChars (g :: hs) from by rw [serFieldsChars]]
          simp only [List.cons_append, List.append_assoc]
          simp only [parseObjItems]
          rw [skipWs_not_ws (by decide)]
          simp only [if_false, if_pos rfl,
            show ('"' : Char) ≠ '\x7d' from by decide]
          rw [parseStringRest_escStr]
          simp only [@skipWs_not_ws ':' (by decide), if_pos rfl]
          rw [ihV kv.2 (by omega)
            (',' :: (serFieldsChars (g :: hs) ++ '\x7d' :: rest)) (Or.inl rfl) f
            (by omega) hwv]
          simp only [@skipWs_not_ws ',' (by decide), if_pos rfl,
            show ((',' : Char) = '\x7d') = False from by decide]
          rw [ihF (g :: hs) (by rw [jsizeFields]; omega) rest f
            (by rw [jsizeFields]; omega) hwgs]
          rfl

/-- `JSON.parse` inverts `JSON.stringify` on well-formed JSON values. -/
theorem jsonParse_jsonSerialize (v : JsonValue) (hwf : jsonWf v = true) :
    jsonParse (jsonSerialize v) = .ok v := by
  rw [jsonParse, jsonSerialize]
  have hdata : (⟨serChars v⟩ : String).data = serChars v := rfl
  have hlen : (⟨serChars v⟩ : String).length = (serChars v).length := rfl
  rw [hdata, hlen]
  have hle := jsize_le_len v
  have hmain := (roundtrip_bundle (jsize v)).1 v le_rfl [] trivial
    (2 * (serChars v).length + 2) (by omega) hwf
  rw [List.append_nil] at hmain
  rw [hmain]
  rfl

/-! ## Schema-level lemmas -/

theorem strLen_lt_one_iff (m : String) : m.length < 1 ↔ m = "" := by
  cases m with
  | mk l =>
    cases l with
    | nil => simp [String.length]
    | cons c cs =>
      constructor
      · intro h
        simp [String.length] at h
      · intro h
        have hd := congrArg String.data h
        simp at hd

theorem loginSchema_ok (m s : String) (hm : ¬ m.length < 1) (hs : ¬ s.length < 1) :
    LoginRequestSchema (.obj [("message", .str m), ("signature", .str s)]) =
      .ok ⟨m, s⟩ := by
  simp [LoginRequestSchema, reqField, messageField, signatureField, zString,
    runChecks, strMin, prefixKey, zPair, hm, hs, List.lookup, Except.map]

theorem loginSchema_run (m s : String) :
    LoginRequestSchema (.obj [("message", .str m), ("signature", .str s)]) =
      if m.length < 1 then
        if s.length < 1 then
          .error [⟨[.key "message"], "メッセージは必須です"⟩,
            ⟨[.key "signature"], "署名は必須です"⟩]
        else .error [⟨[.key "message"], "メッセージは必須です"⟩]
      else if s.length < 1 then
        .error [⟨[.key "signature"], "署名は必須です"⟩]
      else .ok ⟨m, s⟩ := by
  by_cases hm : m.length < 1 <;> by_cases hs : s.length < 1 <;>
    simp [LoginRequestSchema, reqField, messageField, signatureField, zString,
      runChecks, strMin, prefixKey, zPair, errList, hm, hs, List.lookup,
      Except.map]

/-- Claim C5: `LoginRequestSchema` on a login-request-shaped input succeeds
exactly when both `message` and `signature` are non-empty; on success the
fields are returned unchanged; an empty field produces a failure whose path
points at that field. -/
theorem claim_c5_login_request_validation (m s : String) :
    ((∃ r, LoginRequestSchema (.obj [("message", .str m), ("signature", .str s)]) =
        .ok r) ↔ (m ≠ "" ∧ s ≠ "")) ∧
    (∀ r, LoginRequestSchema (.obj [("message", .str m), ("signature", .str s)]) =
        .ok r → r = ⟨m, s⟩) ∧
    (m = "" → ∃ is,
      LoginRequestSchema (.obj [("message", .str m), ("signature", .str s)]) =
        .error is ∧ ∃ i ∈ is, i.path = [.key "message"]) ∧
    (s = "" → ∃ is,
      LoginRequestSchema (.obj [("message", .str m), ("signature", .str s)]) =
        .error is ∧ ∃ i ∈ is, i.path = [.key "signature"]) := by
  have hrun := loginSchema_run m s
  rw [hrun]
  have hmi := strLen_lt_one_iff m
  have hsi := strLen_lt_one_iff s
  by_cases hm : m.length < 1 <;> by_cases hs : s.length < 1 <;>
    simp_all

theorem claim_c5_witness :
    (∃ r, LoginRequestSchema
      (.obj [("message", .str "hi"), ("signature", .str "sig")]) = .ok r) ∧
    (∃ is, LoginRequestSchema
      (.obj [("message", .str "hi"), ("signature", .str "")]) = .error is ∧
      ∃ i ∈ is, i.path = [.key "signature"]) :=
  ⟨(claim_c5_login_request_validation "hi" "sig").1.mpr ⟨by decide, by decide⟩,
   (claim_c5_login_request_validation "hi" "").2.2.2 rfl⟩

theorem successSchema_ok (t : String) :
    LoginSuccessResponseSchema (LoginSuccessResponse.toJson ⟨t⟩) = .ok ⟨t⟩ := by
  simp [LoginSuccessResponse.toJson, LoginSuccessResponseSchema, reqField,
    zString, runChecks, prefixKey, List.lookup, Except.map]

theorem errorSchema_ok (e : String) (msg : Option String) (det : Option JsonValue) :
    ErrorResponseSchema (ErrorResponse.toJson ⟨e, msg, det⟩) = .ok ⟨e, msg, det⟩ := by
  cases msg <;> cases det <;>
    simp [ErrorResponse.toJson, ErrorResponseSchema, reqField, optField, zString,
      runChecks, prefixKey, zPair, List.lookup, Except.map]

theorem jsonWf_loginToJson (m s : String) :
    jsonWf (LoginRequest.toJson ⟨m, s⟩) = true := by
  simp [LoginRequest.toJson, jsonWf, jsonWfFields, nodupKeys]

theorem jsonWf_successToJson (t : String) :
    jsonWf (LoginSuccessResponse.toJson ⟨t⟩) = true := by
  simp [LoginSuccessResponse.toJson, jsonWf, jsonWfFields, nodupKeys]

theorem jsonWf_errorToJson (e : String) (msg : Option String)
    (det : Option JsonValue) (hdet : ∀ v, det = some v → jsonWf v = true) :
    jsonWf (ErrorResponse.toJson ⟨e, msg, det⟩) = true := by
  cases msg <;> cases det <;>
    simp [ErrorResponse.toJson, jsonWf, jsonWfFields, nodupKeys] <;>
    exact hdet _ rfl

/-- Claim C3: serializing a valid object of any of the three schemas to JSON
text and validating it through the corresponding string-wrapped schema
succeeds and returns the same object.  (For `ErrorResponse`, the arbitrary
`details` value carries the well-formedness every JavaScript value has:
decimal-exact numbers and duplicate-free keys.) -/
theorem claim_c3_string_schema_roundtrip :
    (∀ r : LoginRequest, r.message ≠ "" → r.signature ≠ "" →
      LoginRequestStringSchema (jsonSerialize r.toJson) = .ok r) ∧
    (∀ r : LoginSuccessResponse,
      LoginSuccessResponseStringSchema (jsonSerialize r.toJson) = .ok r) ∧
    (∀ r : ErrorResponse, (∀ v, r.details = some v → jsonWf v = true) →
      ErrorResponseStringSchema (jsonSerialize r.toJson) = .ok r) := by
  refine ⟨?_, ?_, ?_⟩
  · rintro ⟨m, s⟩ hm hs
    show stringWrapped LoginRequestSchema _ = _
    rw [stringWrapped, jsonParse_jsonSerialize _ (jsonWf_loginToJson m s)]
    simp only [show LoginRequest.toJson ⟨m, s⟩ =
      .obj [("message", .str m), ("signature", .str s)] from rfl,
      loginSchema_ok m s (by rw [strLen_lt_one_iff]; exact hm)
        (by rw [strLen_lt_one_iff]; exact hs)]
  · rintro ⟨t⟩
    show stringWrapped LoginSuccessResponseSchema _ = _
    rw [stringWrapped, jsonParse_jsonSerialize _ (jsonWf_successToJson t)]
    simp only [successSchema_ok t]
  · rintro ⟨e, msg, det⟩ hdet
    show stringWrapped ErrorResponseSchema _ = _
    rw [stringWrapped, jsonParse_jsonSerialize _ (jsonWf_errorToJson e msg det hdet)]
    simp only [errorSchema_ok e msg det]

theorem claim_c3_witness :
    LoginRequestStringSchema (jsonSerialize (LoginRequest.toJson ⟨"msg", "sig"⟩)) =
        .ok ⟨"msg", "sig"⟩ ∧
    LoginSuccessResponseStringSchema
        (jsonSerialize (LoginSuccessResponse.toJson ⟨"tok"⟩)) = .ok ⟨"tok"⟩ ∧
    ErrorResponseStringSchema
        (jsonSerialize (ErrorResponse.toJson ⟨"E", some "m", none⟩)) =
        .ok ⟨"E", some "m", none⟩ :=
  ⟨claim_c3_string_schema_roundtrip.1 ⟨"msg", "sig"⟩ (by decide) (by decide),
   claim_c3_string_schema_roundtrip.2.1 ⟨"tok"⟩,
   claim_c3_string_schema_roundtrip.2.2 ⟨"E", some "m", none⟩ (fun v h => nomatch h)⟩

/-- Claim C4: a string that is not valid JSON fails every string-wrapped
schema with exactly one root-path failure whose message embeds the parse
error description; no field-level issue can appear. -/
theorem claim_c4_parse_failure (s : String) (e : String)
    (h : jsonParse s = .error e) :
    LoginRequestStringSchema s = .error [⟨[], jsonWrapMessage e⟩] ∧
    LoginSuccessResponseStringSchema s = .error [⟨[], jsonWrapMessage e⟩] ∧
    ErrorResponseStringSchema s = .error [⟨[], jsonWrapMessage e⟩] := by
  refine ⟨?_, ?_, ?_⟩ <;>
    · show stringWrapped _ s = _
      rw [stringWrapped, h]

theorem claim_c4_witness :
    jsonParse "oops" = .error "unexpected character" ∧
    LoginRequestStringSchema "oops" =
      .error [⟨[], jsonWrapMessage "unexpected character"⟩] ∧
    LoginSuccessResponseStringSchema "oops" =
      .error [⟨[], jsonWrapMessage "unexpected character"⟩] ∧
    ErrorResponseStringSchema "oops" =
      .error [⟨[], jsonWrapMessage "unexpected character"⟩] :=
  ⟨rfl, (claim_c4_parse_failure "oops" _ rfl).1,
    (claim_c4_parse_failure "oops" _ rfl).2.1,
    (claim_c4_parse_failure "oops" _ rfl).2.2⟩

def loginRequiredIssues : List Issue :=
  [⟨[.key "message"], "Required"⟩, ⟨[.key "signature"], "Required"⟩]

/-- Claim C1 counterexample: on the input string `"{}"` (written with
escaped braces), the JSON parse succeeds and `LoginRequestSchema` rejects
with its own two field-path failures, but the string-wrapped schema does
NOT return that failure list as-is: it returns a single root-level failure
wrapping the rendered error text. -/
theorem claim_c1_counterexample :
    jsonParse "\x7b\x7d" = .ok (.obj []) ∧
    LoginRequestSchema (.obj []) = .error loginRequiredIssues ∧
    LoginRequestStringSchema "\x7b\x7d" =
      .error [⟨[], jsonWrapMessage (renderIssues loginRequiredIssues)⟩] ∧
    LoginRequestStringSchema "\x7b\x7d" ≠ .error loginRequiredIssues := by
  refine ⟨rfl, rfl, rfl, ?_⟩
  intro h
  rw [show LoginRequestStringSchema "\x7b\x7d" =
    .error [⟨[], jsonWrapMessage (renderIssues loginRequiredIssues)⟩] from rfl] at h
  simp [loginRequiredIssues] at h

/-- Claim C1 (amended): when the input parses as JSON but the delegated
object schema rejects, the string-wrapped schema wraps the object schema's
failures into one root-level custom failure embedding their rendered text
(the `catch` in the transform also catches the thrown `ZodError`), instead
of returning the failure list as-is. -/
theorem claim_c1_amended (s : String) (v : JsonValue) (is : List Issue)
    (hp : jsonParse s = .ok v) :
    (LoginRequestSchema v = .error is → LoginRequestStringSchema s =
      .error [⟨[], jsonWrapMessage (renderIssues is)⟩]) ∧
    (LoginSuccessResponseSchema v = .error is → LoginSuccessResponseStringSchema s =
      .error [⟨[], jsonWrapMessage (renderIssues is)⟩]) ∧
    (ErrorResponseSchema v = .error is → ErrorResponseStringSchema s =
      .error [⟨[], jsonWrapMessage (renderIssues is)⟩]) := by
  refine ⟨?_, ?_, ?_⟩ <;> intro hv <;>
    · show stringWrapped _ s = _
      rw [stringWrapped, hp]
      simp only [hv]

theorem claim_c1_amended_witness :
    LoginRequestStringSchema "\x7b\x7d" =
      .error [⟨[], jsonWrapMessage (renderIssues loginRequiredIssues)⟩] ∧
    LoginSuccessResponseStringSchema "\x7b\x7d" =
      .error [⟨[], jsonWrapMessage (renderIssues [⟨[.key "token"], "Required"⟩])⟩] :=
  ⟨(claim_c1_amended "\x7b\x7d" (.obj []) loginRequiredIssues rfl).1 rfl,
   (claim_c1_amended "\x7b\x7d" (.obj []) [⟨[.key "token"], "Required"⟩] rfl).2.1 rfl⟩

/-- Claim C6: `createErrorResponse` always includes `error`; `message` and
`details` are included only when truthy (empty string, `0`, `false`
omitted); `createErrorResponse "E" "" 0` is exactly `\x7b error: "E" \x7d`;
no input validation is performed (the builder is total and never fails). -/
theorem claim_c6_create_error_response :
    (∀ e m d, (createErrorResponse e m d).error = e) ∧
    (∀ e d, (createErrorResponse e none d).message = none) ∧
    (∀ e d s, (createErrorResponse e (some s) d).message =
      if s = "" then none else some s) ∧
    (∀ e m, (createErrorResponse e m none).details = none) ∧
    (∀ e m v, (createErrorResponse e m (some v)).details =
      if jsTruthy v then some v else none) ∧
    createErrorResponse "E" (some "") (some (.num 0)) = ⟨"E", none, none⟩ := by
  refine ⟨fun e m d => rfl, fun e d => rfl, ?_, fun e m => rfl, ?_, ?_⟩
  · intro e d s
    by_cases hs : s = "" <;> simp [createErrorResponse, strOptTruthy, hs]
  · intro e m v
    by_cases hv : jsTruthy v <;> simp [createErrorResponse, jsonOptTruthy, hv]
  · rfl

theorem bps_ok_iff (m1 m2 : String) (q : ℚ) :
    (∃ q', zNumber [numInt, numMin 0 m1, numMax 1000 m2] (.num q) = .ok q') ↔
      (q.den = 1 ∧ 0 ≤ q ∧ q ≤ 1000) := by
  by_cases h1 : q.den = 1 <;> by_cases h2 : q < 0 <;> by_cases h3 : (1000 : ℚ) < q <;>
    simp [zNumber, runChecks, numInt, numMin, numMax, h1, h2, h3] ;
    exact ⟨le_of_not_lt h2, le_of_not_lt h3⟩

theorem bps_val_iff (m1 m2 : String) (v : JsonValue) :
    (∃ q, zNumber [numInt, numMin 0 m1, numMax 1000 m2] v = .ok q) ↔
      (∃ n : ℤ, v = .num (n : ℚ) ∧ 0 ≤ n ∧ n ≤ 1000) := by
  cases v with
  | num q =>
    rw [bps_ok_iff]
    constructor
    · rintro ⟨h1, h2, h3⟩
      have hq : ((q.num : ℚ)) = q := Rat.coe_int_num_of_den_eq_one h1
      refine ⟨q.num, by rw [hq], Rat.num_nonneg.mpr h2, ?_⟩
      have h4 : ((q.num : ℚ)) ≤ 1000 := by rw [hq]; exact h3
      exact_mod_cast h4
    · rintro ⟨n, hn, h0, h1000⟩
      injection hn with hq
      subst hq
      refine ⟨Rat.den_intCast n, by exact_mod_cast h0, by exact_mod_cast h1000⟩
  | null => simp [zNumber]
  | bool b => simp [zNumber]
  | str s => simp [zNumber]
  | arr xs => simp [zNumber]
  | obj fs => simp [zNumber]

/-- Claim C9: the `mint_royalty_bps` and `burn_royalty_bps` field schemas
accept exactly the integers in `[0, 1000]`; boundary values `0` and `1000`
pass while `-1`, `1001` and the non-integer `1/2` fail. -/
theorem claim_c9_royalty_bps_range :
    (∀ v : JsonValue, (∃ q, mintRoyaltyField v = .ok q) ↔
      (∃ n : ℤ, v = .num (n : ℚ) ∧ 0 ≤ n ∧ n ≤ 1000)) ∧
    (∀ v : JsonValue, (∃ q, burnRoyaltyField v = .ok q) ↔
      (∃ n : ℤ, v = .num (n : ℚ) ∧ 0 ≤ n ∧ n ≤ 1000)) ∧
    mintRoyaltyField (.num 0) = .ok 0 ∧
    mintRoyaltyField (.num 1000) = .ok 1000 ∧
    burnRoyaltyField (.num 0) = .ok 0 ∧
    burnRoyaltyField (.num 1000) = .ok 1000 ∧
    (∃ is, mintRoyaltyField (.num (-1)) = .error is) ∧
    (∃ is, mintRoyaltyField (.num 1001) = .error is) ∧
    (∃ is, mintRoyaltyField (.num (mkRat 1 2)) = .error is) ∧
    (∃ is, burnRoyaltyField (.num (-1)) = .error is) ∧
    (∃ is, burnRoyaltyField (.num 1001) = .error is) ∧
    (∃ is, burnRoyaltyField (.num (mkRat 1 2)) = .error is) :=
  ⟨fun v => bps_val_iff _ _ v, fun v => bps_val_iff _ _ v,
    rfl, rfl, rfl, rfl, ⟨_, rfl⟩, ⟨_, rfl⟩,
    ⟨[⟨[], "Expected integer, received float"⟩], by rfl⟩, ⟨_, rfl⟩, ⟨_, rfl⟩,
    ⟨[⟨[], "Expected integer, received float"⟩], by rfl⟩⟩

/-- Claim C8: the `symbol` field schema accepts exactly strings of 3 to 8
characters drawn from `A`-`Z` and `0`-`9`; `"ABC123"` passes while `"ab"`,
`"ABCDEFGHI"` and `"abc"` fail. -/
theorem claim_c8_symbol_field :
    (∀ v : JsonValue, (∃ w, symbolField v = .ok w) ↔
      (∃ s : String, v = .str s ∧ 3 ≤ s.length ∧ s.length ≤ 8 ∧
        ∀ c ∈ s.data, (('A' ≤ c ∧ c ≤ 'Z') ∨ c.isDigit = true))) ∧
    symbolField (.str "ABC123") = .ok "ABC123" ∧
    (∃ is, symbolField (.str "ab") = .error is) ∧
    (∃ is, symbolField (.str "ABCDEFGHI") = .error is) ∧
    (∃ is, symbolField (.str "abc") = .error is) := by
  refine ⟨?_, rfl, ⟨_, rfl⟩, ⟨_, rfl⟩, ⟨_, rfl⟩⟩
  intro v
  cases v with
  | str s =>
    have hlen : s.length = s.data.length := rfl
    have hiff : (∃ w, symbolField (.str s) = .ok w) ↔
        (¬ s.length < 3 ∧ ¬ 8 < s.length ∧ symbolRe s = true) := by
      by_cases h3 : s.length < 3 <;> by_cases h8 : 8 < s.length <;>
        by_cases hre : symbolRe s = true <;>
        simp [symbolField, zString, runChecks, strMin, strMax, strPattern,
          h3, h8, hre]
    rw [hiff]
    simp only [JsonValue.str.injEq, exists_eq_left', not_lt, symbolRe,
      Bool.and_eq_true, Bool.or_eq_true, List.all_eq_true, decide_eq_true_eq,
      Bool.not_eq_true', List.isEmpty_eq_false, ne_eq]
    constructor
    · rintro ⟨a, b, _, hall⟩
      exact ⟨a, b, hall⟩
    · rintro ⟨a, b, hall⟩
      refine ⟨a, b, ?_, hall⟩
      intro h
      rw [hlen, h] at a
      simp at a
  | null => simp [symbolField, zString]
  | bool b => simp [symbolField, zString]
  | num q => simp [symbolField, zString]
  | arr xs => simp [symbolField, zString]
  | obj fs => simp [symbolField, zString]

theorem zPair_ok {α β : Type} {ra : VResult α} {rb : VResult β} {x : α × β}
    (h : zPair ra rb = .ok x) : ra = .ok x.1 ∧ rb = .ok x.2 := by
  cases ra with
  | error e => simp [zPair] at h
  | ok a =>
    cases rb with
    | error e => simp [zPair] at h
    | ok b =>
      simp only [zPair, Except.ok.injEq] at h
      rw [← h]
      exact ⟨rfl, rfl⟩

theorem exceptMap_ok {α β : Type} {f : α → β} {r : VResult α} {b : β}
    (h : r.map f = .ok b) : ∃ a, r = .ok a ∧ f a = b := by
  cases r with
  | error e => simp [Except.map] at h
  | ok a =>
    simp only [Except.map, Except.ok.injEq] at h
    exact ⟨a, rfl, h⟩

theorem reqField_ok {α : Type} {fs : List (String × JsonValue)} {k : String}
    {f : JsonValue → VResult α} {a : α} (h : reqField fs k f = .ok a) :
    ∃ v, fs.lookup k = some v ∧ f v = .ok a := by
  rw [reqField] at h
  cases hl : fs.lookup k with
  | none =>
    rw [hl] at h
    simp at h
  | some v =>
    rw [hl] at h
    refine ⟨v, rfl, ?_⟩
    cases hf : f v with
    | ok b =>
      simp only [hf, prefixKey, Except.ok.injEq] at h
      rw [h]
    | error is =>
      simp [hf, prefixKey] at h

theorem flatten_nil_mem {α : Type} {ls : List (List α)} (h : ls.flatten = []) :
    ∀ l ∈ ls, l = [] := by
  induction ls with
  | nil =>
    intro l hl
    simp at hl
  | cons a as ih =>
    simp only [List.flatten_cons, List.append_eq_nil] at h
    intro l hl
    rcases List.mem_cons.mp hl with hl | hl
    · rw [hl]
      exact h.1
    · exact ih h.2 l hl

theorem filterMap_all_some_length {α : Type} (rs : List (VResult α))
    (hall : ∀ r ∈ rs, ∃ a, r = .ok a) :
    (rs.filterMap okVal).length = rs.length := by
  induction rs with
  | nil => rfl
  | cons r rest ih =>
    obtain ⟨a, ha⟩ := hall r (by simp)
    subst ha
    simp only [List.filterMap_cons, okVal, List.length_cons]
    rw [ih (fun r hr => hall r (by simp [hr]))]

theorem zArrayMin_ok_min {α : Type} (minLen : Nat) (msg : String)
    (elemF : JsonValue → VResult α) (v : JsonValue) (out : List α)
    (helem : ∀ x is, elemF x = .error is → is ≠ [])
    (h : zArrayMin minLen msg elemF v = .ok out) : minLen ≤ out.length := by
  cases v with
  | arr xs =>
    rw [zArrayMin] at h
    cases hsc : (if xs.length < minLen then [(⟨[], msg⟩ : Issue)] else []) ++
        ((xs.enum.map fun p => prefixIdx p.1 (elemF p.2)).map errList).flatten with
    | cons i is =>
      rw [hsc] at h
      simp at h
    | nil =>
      rw [hsc] at h
      simp only [Except.ok.injEq] at h
      rw [List.append_eq_nil] at hsc
      obtain ⟨hlen, hflat⟩ := hsc
      have hxs : ¬ xs.length < minLen := by
        intro hc
        rw [if_pos hc] at hlen
        cases hlen
      have hall : ∀ r ∈ xs.enum.map fun p => prefixIdx p.1 (elemF p.2),
          ∃ a, r = .ok a := by
        intro r hr
        have herr : errList r = [] := by
          have : errList r ∈ ((xs.enum.map fun p =>
              prefixIdx p.1 (elemF p.2)).map errList) := List.mem_map_of_mem _ hr
          exact flatten_nil_mem hflat _ this
        obtain ⟨p, _, hp⟩ := List.mem_map.mp hr
        cases he : elemF p.2 with
        | ok a => exact ⟨a, by rw [← hp, he]; rfl⟩
        | error is =>
          exfalso
          rw [← hp, he] at herr
          simp only [prefixIdx, errList] at herr
          exact helem p.2 is he (List.map_eq_nil_iff.mp herr)
      rw [← h, filterMap_all_some_length _ hall]
      simp only [List.length_map, List.enum_length]
      omega
  | null => simp [zArrayMin] at h
  | bool b => simp [zArrayMin] at h
  | num q => simp [zArrayMin] at h
  | str s => simp [zArrayMin] at h
  | obj fs => simp [zArrayMin] at h

theorem zRefineStr_err_nonempty (pred : String → Bool) (msg : String)
    (v : JsonValue) (h : zRefine (zString []) pred msg v = .error []) : False := by
  cases v with
  | str s => by_cases hp : pred s = true <;> simp [zRefine, zString, runChecks, hp] at h
  | null => simp [zRefine, zString] at h
  | bool b => simp [zRefine, zString] at h
  | num q => simp [zRefine, zString] at h
  | arr xs => simp [zRefine, zString] at h
  | obj fs => simp [zRefine, zString] at h

theorem reqField_err_nonempty {α : Type} (fs : List (String × JsonValue))
    (k : String) (f : JsonValue → VResult α)
    (hf : ∀ v, f v = .error [] → False) (h : reqField fs k f = .error []) :
    False := by
  rw [reqField] at h
  cases hl : fs.lookup k with
  | none =>
    rw [hl] at h
    simp at h
  | some v =>
    rw [hl] at h
    cases he : f v with
    | ok a => simp [he, prefixKey] at h
    | error is =>
      simp only [he, prefixKey, Except.error.injEq, List.map_eq_nil_iff] at h
      exact hf v (by rw [he, h])

theorem stepSchema_err_nonempty (x : JsonValue) (is : List Issue)
    (h : bondingCurveStepSchema x = .error is) : is ≠ [] := by
  intro hnil
  subst hnil
  cases x with
  | obj fs =>
    rw [bondingCurveStepSchema] at h
    cases h1 : reqField fs "range" rangeField with
    | ok a =>
      cases h2 : reqField fs "price" priceField with
      | ok b => simp [h1, h2, zPair, Except.map] at h
      | error is2 =>
        simp only [h1, h2, zPair, Except.map, errList, List.nil_append,
          Except.error.injEq] at h
        subst h
        exact reqField_err_nonempty fs "price" priceField
          (fun v hv => zRefineStr_err_nonempty _ _ v hv) h2
    | error is1 =>
      cases h2 : reqField fs "price" priceField with
      | ok b =>
        simp only [h1, h2, zPair, Except.map, errList, List.append_nil,
          Except.error.injEq] at h
        subst h
        exact reqField_err_nonempty fs "range" rangeField
          (fun v hv => zRefineStr_err_nonempty _ _ v hv) h1
      | error is2 =>
        simp only [h1, h2, zPair, Except.map, errList, Except.error.injEq] at h
        rcases List.append_eq_nil.mp h with ⟨ha, _⟩
        subst ha
        exact reqField_err_nonempty fs "range" rangeField
          (fun v hv => zRefineStr_err_nonempty _ _ v hv) h1
  | null => simp [bondingCurveStepSchema] at h
  | bool b => simp [bondingCurveStepSchema] at h
  | num q => simp [bondingCurveStepSchema] at h
  | str s => simp [bondingCurveStepSchema] at h
  | arr xs => simp [bondingCurveStepSchema] at h

theorem rat_blt_false_iff (q : ℚ) : (q.blt 0 = false) ↔ 0 ≤ q := by
  have hlt : (q < 0) ↔ (q.blt 0 = true) := Iff.rfl
  constructor
  · intro h
    refine not_lt.mp ?_
    rw [hlt, h]
    simp
  · intro h
    have h2 := not_lt.mpr h
    rw [hlt] at h2
    simpa using h2

/-- Claim C7: a payload accepted by `RequestCoinCreationPayloadSchema` has at
least one bonding-curve step, and one step validates exactly when its
`range` matches `^\d+$` with positive integer value and its `price` matches
`^\d+(\.\d+)?$` with non-negative value; `(range "100", price "1.5")`
passes while `(range "0")` and `(range "abc")` fail. -/
theorem claim_c7_bonding_curve_steps :
    (∀ (v : JsonValue) (pl : RequestCoinCreationPayload),
      RequestCoinCreationPayloadSchema v = .ok pl →
      1 ≤ pl.bonding_curve_steps.length) ∧
    (∀ r p : String,
      bondingCurveStepSchema (.obj [("range", .str r), ("price", .str p)]) =
          .ok ⟨r, p⟩ ↔
        (digitsRe r = true ∧ 0 < parseNatStr r ∧ decRe p = true ∧
          0 ≤ parseDecStr p)) ∧
    bondingCurveStepSchema (.obj [("range", .str "100"), ("price", .str "1.5")]) =
      .ok ⟨"100", "1.5"⟩ ∧
    (∃ is, bondingCurveStepSchema
      (.obj [("range", .str "0"), ("price", .str "1.5")]) = .error is) ∧
    (∃ is, bondingCurveStepSchema
      (.obj [("range", .str "abc"), ("price", .str "1.5")]) = .error is) := by
  refine ⟨?_, ?_, rfl, ⟨_, rfl⟩, ⟨_, rfl⟩⟩
  · intro v pl h
    cases v with
    | obj fs =>
      rw [RequestCoinCreationPayloadSchema] at h
      obtain ⟨p9, hp9, hbuild⟩ := exceptMap_ok h
      have h1 := zPair_ok hp9
      have h2 := zPair_ok h1.2
      have h3 := zPair_ok h2.2
      have h4 := zPair_ok h3.2
      have h5 := zPair_ok h4.2
      have h6 := zPair_ok h5.2
      have h7 := zPair_ok h6.2
      have h8 := zPair_ok h7.2
      obtain ⟨v', _, hbs⟩ := reqField_ok h8.1
      rw [bondingStepsField] at hbs
      have hmin := zArrayMin_ok_min 1 _ bondingCurveStepSchema v' _
        stepSchema_err_nonempty hbs
      rw [← hbuild]
      exact hmin
    | null => simp [RequestCoinCreationPayloadSchema] at h
    | bool b => simp [RequestCoinCreationPayloadSchema] at h
    | num q => simp [RequestCoinCreationPayloadSchema] at h
    | str s => simp [RequestCoinCreationPayloadSchema] at h
    | arr xs => simp [RequestCoinCreationPayloadSchema] at h
  · intro r p
    have hbr := rat_blt_false_iff (parseDecStr p)
    by_cases hr : (digitsRe r && decide (0 < parseNatStr r)) = true <;>
      by_cases hp : (decRe p && !((parseDecStr p).blt 0)) = true <;>
      simp [bondingCurveStepSchema, reqField, rangeField, priceField, zRefine,
        zString, runChecks, prefixKey, zPair, errList, List.lookup, Except.map,
        hr, hp]
    · simp only [Bool.and_eq_true, decide_eq_true_eq] at hr
      simp only [Bool.and_eq_true, Bool.not_eq_true'] at hp
      exact ⟨hr.1, hr.2, hp.1, hbr.mp hp.2⟩
    · intro h1 h2 h3
      rcases Bool.and_eq_false_iff.mp (Bool.eq_false_iff.mpr hp) with h | h
      · rw [h3] at h
        cases h
      · have hb : (parseDecStr p).blt 0 = true := by
          cases hblt : (parseDecStr p).blt 0
          · rw [hblt] at h
            cases h
          · rfl
        show (parseDecStr p).blt 0 = true
        exact hb
    · intro h1 h2 h3
      rcases Bool.and_eq_false_iff.mp (Bool.eq_false_iff.mpr hr) with h | h
      · rw [h1] at h
        cases h
      · rw [decide_eq_true h2] at h
        cases h
    · intro h1 h2 h3
      rcases Bool.and_eq_false_iff.mp (Bool.eq_false_iff.mpr hr) with h | h
      · rw [h1] at h
        cases h
      · rw [decide_eq_true h2] at h
        cases h

def c7PayloadInput : JsonValue := .obj
  [("name", .str "Token"), ("symbol", .str "ABC"), ("description", .str "d"),
   ("reserve_token_address", .str "r"), ("mint_royalty_bps", .num 0),
   ("burn_royalty_bps", .num 1000),
   ("bonding_curve_steps", .arr [.obj [("range", .str "100"), ("price", .str "1.5")]]),
   ("manual_verification_requested", .bool false)]

def c7Payload : RequestCoinCreationPayload :=
  ⟨"Token", "ABC", none, "d", "r", 0, 1000, [⟨"100", "1.5"⟩], false⟩

theorem claim_c7_witness :
    RequestCoinCreationPayloadSchema c7PayloadInput = .ok c7Payload ∧
    1 ≤ c7Payload.bonding_curve_steps.length ∧
    (bondingCurveStepSchema (.obj [("range", .str "100"), ("price", .str "1.5")]) =
        .ok ⟨"100", "1.5"⟩ ↔
      (digitsRe "100" = true ∧ 0 < parseNatStr "100" ∧ decRe "1.5" = true ∧
        0 ≤ parseDecStr "1.5")) :=
  ⟨rfl, claim_c7_bonding_curve_steps.1 c7PayloadInput c7Payload rfl,
    claim_c7_bonding_curve_steps.2.1 "100" "1.5"⟩

theorem optField_ok {α : Type} {fs : List (String × JsonValue)} {k : String}
    {f : JsonValue → VResult α} {o : Option α} (h : optField fs k f = .ok o) :
    (o = none ∧ fs.lookup k = none) ∨
      ∃ v a, fs.lookup k = some v ∧ f v = .ok a ∧ o = some a := by
  rw [optField] at h
  cases hl : fs.lookup k with
  | none =>
    rw [hl] at h
    left
    simp only [Except.ok.injEq] at h
    exact ⟨h.symm, rfl⟩
  | some v =>
    rw [hl] at h
    right
    cases hf : f v with
    | ok a =>
      simp only [hf, prefixKey, Except.map, Except.ok.injEq] at h
      exact ⟨v, a, rfl, hf, h.symm⟩
    | error is => simp [hf, prefixKey, Except.map] at h

theorem confirmRefine_eq (p : ConfirmCoinCreationPayload) :
    confirmRefineIssues p =
      (if p.status = "confirmed" ∧ strOptFalsy p.contract_address = true then
        [⟨[.key "contract_address"],
          "status が \x27confirmed\x27 の場合、contract_address は必須です。"⟩]
       else []) ++
      (if p.status = "reverted" ∧ strOptFalsy p.contract_address = false then
        [⟨[.key "contract_address"],
          "status が \x27reverted\x27 の場合、contract_address は指定できません。"⟩]
       else []) := by
  simp only [confirmRefineIssues, Bool.and_eq_true, beq_iff_eq,
    Bool.not_eq_true']

/-- Claim C2 (amended): in zod 3 the `.superRefine` cross-field rule is
evaluated whenever no field aborted (wrong type, invalid enum value or
missing required key) — a failing string check only marks the result dirty
and keeps the raw value, so the rule also runs then, judging the pairing on
the raw values by JavaScript truthiness.  The refinement adds at most one
failure, always at the `contract_address` path, exactly when `status` is
`"confirmed"` with an absent-or-empty `contract_address` or `"reverted"`
with a present non-empty one; the schema appends its failures after the
per-field failures and succeeds exactly when there is no failure at all,
while an aborted per-field stage returns its failures with the rule never
evaluated. -/
theorem claim_c2_amended :
    (∀ p : ConfirmCoinCreationPayload,
      (∀ i ∈ confirmRefineIssues p, i.path = [.key "contract_address"]) ∧
      (confirmRefineIssues p).length ≤ 1 ∧
      (confirmRefineIssues p ≠ [] ↔
        ((p.status = "confirmed" ∧ strOptFalsy p.contract_address = true) ∨
          (p.status = "reverted" ∧ strOptFalsy p.contract_address = false)))) ∧
    (∀ v, (confirmObjectStage v).val = none →
      ConfirmCoinCreationPayloadSchema v =
        .error (confirmObjectStage v).issues) ∧
    (∀ v p, (confirmObjectStage v).val = some p →
      ((confirmObjectStage v).issues ++ confirmRefineIssues p = [] →
        ConfirmCoinCreationPayloadSchema v = .ok p) ∧
      ((confirmObjectStage v).issues ++ confirmRefineIssues p ≠ [] →
        ConfirmCoinCreationPayloadSchema v =
          .error ((confirmObjectStage v).issues ++ confirmRefineIssues p))) := by
  refine ⟨?_, ?_, ?_⟩
  · intro p
    by_cases hA : p.status = "confirmed" ∧ strOptFalsy p.contract_address = true <;>
      by_cases hB : p.status = "reverted" ∧ strOptFalsy p.contract_address = false
    · exact absurd (hA.1.symm.trans hB.1) (by decide)
    · rw [confirmRefine_eq, if_pos hA, if_neg hB]
      refine ⟨?_, by simp, ?_⟩
      · intro i hi
        simp only [List.append_nil, List.mem_singleton] at hi
        rw [hi]
      · simp [hA.1, hA.2]
    · rw [confirmRefine_eq, if_neg hA, if_pos hB]
      refine ⟨?_, by simp, ?_⟩
      · intro i hi
        simp only [List.nil_append, List.mem_singleton] at hi
        rw [hi]
      · simp [hB.1, hB.2]
    · rw [confirmRefine_eq, if_neg hA, if_neg hB]
      refine ⟨by simp, by simp, ?_⟩
      constructor
      · intro h
        exact absurd rfl h
      · rintro (h | h)
        · exact absurd h hA
        · exact absurd h hB
  · intro v h
    simp only [ConfirmCoinCreationPayloadSchema, h]
  · intro v p h
    constructor
    · intro hnil
      simp only [ConfirmCoinCreationPayloadSchema, h, hnil]
    · intro hne
      simp only [ConfirmCoinCreationPayloadSchema, h]
      cases hl : (confirmObjectStage v).issues ++ confirmRefineIssues p with
      | nil => exact absurd hl hne
      | cons i is => rfl

def c2ConfirmInput : JsonValue := .obj
  [("coin_id", .str "123e4567-e89b-12d3-a456-426614174000"),
   ("transaction_hash",
     .str "0xaaaaaaaaaaaaaaaaaaaaaaaaaaaaaaaaaaaaaaaaaaaaaaaaaaaaaaaaaaaaaaaa"),
   ("status", .str "confirmed")]

def c2ConfirmPayload : ConfirmCoinCreationPayload :=
  ⟨"123e4567-e89b-12d3-a456-426614174000",
   "0xaaaaaaaaaaaaaaaaaaaaaaaaaaaaaaaaaaaaaaaaaaaaaaaaaaaaaaaaaaaaaaaa",
   "confirmed", none, none⟩

def c2DirtyInput : JsonValue := .obj
  [("coin_id", .str "123e4567-e89b-12d3-a456-426614174000"),
   ("transaction_hash",
     .str "0xaaaaaaaaaaaaaaaaaaaaaaaaaaaaaaaaaaaaaaaaaaaaaaaaaaaaaaaaaaaaaaaa"),
   ("status", .str "reverted"),
   ("contract_address", .str "0xdead")]

/-- Claim C2, counterexample: the cross-field rule is NOT evaluated only
after all per-field constraints pass.  With a valid `coin_id` and
`transaction_hash`, `status = "reverted"` and the regex-invalid
`contract_address` value `"0xdead"`, the per-field stage records the regex
failure, yet the returned failure list also carries the cross-field
failure: zod 3 runs `.superRefine` on the dirty result, where the kept raw
string `"0xdead"` is truthy. -/
theorem claim_c2_counterexample :
    (confirmObjectStage c2DirtyInput).issues =
      [⟨[.key "contract_address"], "無効なコントラクトアドレス形式です。"⟩] ∧
    ConfirmCoinCreationPayloadSchema c2DirtyInput =
      .error
        [⟨[.key "contract_address"], "無効なコントラクトアドレス形式です。"⟩,
         ⟨[.key "contract_address"],
           "status が \x27reverted\x27 の場合、contract_address は指定できません。"⟩] :=
  ⟨rfl, rfl⟩

theorem claim_c2_amended_witness :
    (confirmObjectStage c2ConfirmInput).val = some c2ConfirmPayload ∧
    ConfirmCoinCreationPayloadSchema c2ConfirmInput =
      .error [⟨[.key "contract_address"],
        "status が \x27confirmed\x27 の場合、contract_address は必須です。"⟩] := by
  have he : (confirmObjectStage c2ConfirmInput).issues ++
      confirmRefineIssues c2ConfirmPayload =
      [⟨[.key "contract_address"],
        "status が \x27confirmed\x27 の場合、contract_address は必須です。"⟩] := rfl
  refine ⟨rfl, ?_⟩
  have h := (claim_c2_amended.2.2 c2ConfirmInput c2ConfirmPayload rfl).2
    (by rw [he]; exact List.cons_ne_nil _ _)
  rw [he] at h
  exact h

def objKeys : JsonValue → List String
  | .obj fs => fs.map Prod.fst
  | _ => []

theorem errorToJson_keys_sub (r : ErrorResponse) :
    ∀ k ∈ objKeys r.toJson, k ∈ ["error", "message", "details"] := by
  obtain ⟨e, msg, det⟩ := r
  cases msg <;> cases det <;> simp [ErrorResponse.toJson, objKeys]

/-- Claim C10: successful object-schema validation strips keys not declared
in the schema: the success value carries exactly the declared keys present
in the input, so an input with an extra key is never equal to the output. -/
theorem claim_c10_strip_unknown_keys :
    (∀ (fs : List (String × JsonValue)) (r : LoginRequest),
      LoginRequestSchema (.obj fs) = .ok r →
      objKeys r.toJson = ["message", "signature"] ∧
      (∀ k ∈ fs.map Prod.fst, k ∉ ["message", "signature"] →
        LoginRequest.toJson r ≠ .obj fs)) ∧
    (∀ (fs : List (String × JsonValue)) (r : ErrorResponse),
      ErrorResponseSchema (.obj fs) = .ok r →
      (objKeys r.toJson = ["error"] ++
        (if (fs.lookup "message").isSome then ["message"] else []) ++
        (if (fs.lookup "details").isSome then ["details"] else [])) ∧
      (∀ k ∈ fs.map Prod.fst, k ∉ ["error", "message", "details"] →
        ErrorResponse.toJson r ≠ .obj fs)) := by
  constructor
  · intro fs r _
    refine ⟨rfl, ?_⟩
    intro k hk hnk heq
    apply hnk
    have hkeys : fs.map Prod.fst = objKeys r.toJson := by
      rw [show objKeys r.toJson = objKeys (.obj fs) from by rw [heq]]
      rfl
    rw [hkeys] at hk
    rw [show objKeys r.toJson = ["message", "signature"] from rfl] at hk
    exact hk
  · intro fs r h
    rw [ErrorResponseSchema] at h
    obtain ⟨p3, hp3, hbuild⟩ := exceptMap_ok h
    have h1 := zPair_ok hp3
    have h2 := zPair_ok h1.2
    have hrm : r.message = p3.2.1 := by rw [← hbuild]
    have hrd : r.details = p3.2.2 := by rw [← hbuild]
    have hre : r.error = p3.1 := by rw [← hbuild]
    constructor
    · rcases optField_ok h2.1 with ⟨hm, hlm⟩ | ⟨vm, am, hlm, _, hm⟩ <;>
        rcases optField_ok h2.2 with ⟨hd, hld⟩ | ⟨vd, ad, hld, _, hd⟩ <;>
        (obtain ⟨e', msg', det'⟩ := r
         simp only at hrm hrd
         subst hrm
         subst hrd) <;>
        simp [ErrorResponse.toJson, objKeys, hm, hd, hlm, hld]
    · intro k hk hnk heq
      apply hnk
      have hkeys : fs.map Prod.fst = objKeys r.toJson := by
        rw [show objKeys r.toJson = objKeys (.obj fs) from by rw [heq]]
        rfl
      rw [hkeys] at hk
      exact errorToJson_keys_sub r k hk

theorem claim_c10_witness :
    LoginRequestSchema (.obj [("message", .str "a"), ("signature", .str "b"),
      ("extra", .null)]) = .ok ⟨"a", "b"⟩ ∧
    objKeys (LoginRequest.toJson ⟨"a", "b"⟩) = ["message", "signature"] ∧
    LoginRequest.toJson ⟨"a", "b"⟩ ≠
      .obj [("message", .str "a"), ("signature", .str "b"), ("extra", .null)] :=
  ⟨rfl,
   (claim_c10_strip_unknown_keys.1 [("message", .str "a"), ("signature", .str "b"),
      ("extra", .null)] ⟨"a", "b"⟩ rfl).1,
   (claim_c10_strip_unknown_keys.1 [("message", .str "a"), ("signature", .str "b"),
      ("extra", .null)] ⟨"a", "b"⟩ rfl).2 "extra" (by decide) (by decide)⟩

theorem claim_c8_witness :
    ∃ w, symbolField (.str "ABC123") = .ok w :=
  (claim_c8_symbol_field.1 (.str "ABC123")).mpr
    ⟨"ABC123", rfl, by decide, by decide, by decide⟩

theorem claim_c9_witness :
    ∃ q, mintRoyaltyField (.num ((5 : ℤ) : ℚ)) = .ok q :=
  (claim_c9_royalty_bps_range.1 (.num ((5 : ℤ) : ℚ))).mpr
    ⟨5, rfl, by decide, by decide⟩
